import Mathlib

/-!
Verification of orderbook-snapshot-diff: the book, `loadSnap`, `apply`, `maxKey`, `minKey`

Shallow embedding of `main.go`.

* A Go `map[float64]float64` is a finite map with unique keys and unspecified
  iteration order: `Finmap` over `ℚ`.  The program only stores, compares and
  prints its numbers (no arithmetic), so a finite `float64` is modelled by the
  rational it denotes; `+0`/`-0` compare equal in Go and are both `0` here.
  This is the program on numbers.  NaN, which `fmt.Sscan` can read and which
  a Go map stores under a key that nothing equals, is followed in a second
  copy of `apply` on floats (`F64`, `FloatMap`, `applyF`); the two agree when
  no NaN is around (`applyF_agrees_with_apply`).  The infinities are outside
  both.
* The process-wide `book` is passed explicitly as a `Book` value.
* `fmt.Sscan` and `time.Parse(...).UnixNano()` are library calls: they are
  parameters (`sscan`, `unixNano`) of the functions that use them.
* An index out of range (`ch[0]`, `ch[1]`, `ch[2]`) is a run-time fault of the
  Go program: `none`.
* The line printed by `apply` is returned as an optional `CrossEvent`.
-/

namespace OrderBook

/-- Go `map[float64]float64`. -/
abbrev PriceMap : Type := Finmap (fun _ : ℚ => ℚ)

/-- Go `type snapshot struct { Bids, Asks map[float64]float64 }`. -/
structure snapshot where
  Bids : PriceMap
  Asks : PriceMap

/-- Go `type l2update struct { Changes [][]string }`. -/
structure l2update where
  Changes : List (List String)

/-- The global `book` (its two maps; the mutex is not modelled). -/
structure Book where
  bids : PriceMap
  asks : PriceMap
  deriving DecidableEq

/-- The book at process start: both maps made empty. -/
def emptyBook : Book := { bids := ∅, asks := ∅ }

/-- The record printed by `apply` as `cross %d %f %f`. -/
structure CrossEvent where
  timestamp : Int
  bestBid : ℚ
  bestAsk : ℚ
  deriving DecidableEq

/-- Go `strToF`: `var f float64; fmt.Sscan(s, &f); return f` (the error of
`Sscan` is dropped, `f` keeps its zero value when nothing was scanned). -/
def strToF (sscan : String → Option ℚ) (s : String) : ℚ :=
  match sscan s with
  | some f => f
  | none => 0

/-- Body of the loop of `maxKey`: `if k > max { max = k }`. -/
def maxStep (max : ℚ) (k : ℚ) (_v : ℚ) : ℚ := if k > max then k else max

/-- Body of the loop of `minKey`: `if k < min { min = k }`. -/
def minStep (min : ℚ) (k : ℚ) (_v : ℚ) : ℚ := if k < min then k else min

/-- Go `maxKey`: `max := 0.0; for k := range m { if k > max { max = k } }`. -/
def maxKey (m : PriceMap) : ℚ :=
  Finmap.foldl maxStep
    (by
      intro d a₁ _ a₂ _
      unfold maxStep
      split_ifs <;> linarith)
    0 m

/-- Go `minKey`: `min := 1e12; for k := range m { if k < min { min = k } }`. -/
def minKey (m : PriceMap) : ℚ :=
  Finmap.foldl minStep
    (by
      intro d a₁ _ a₂ _
      unfold minStep
      split_ifs <;> linarith)
    1e12 m

/-- One loop of `loadSnap`: `for _, b := range src { dst[b] = b }`.  The loop
variable of a two-variable `range` over a map is the VALUE of the entry. -/
def loadSide (dst src : PriceMap) : PriceMap :=
  Finmap.foldl (fun (m : PriceMap) (_k : ℚ) (b : ℚ) => m.insert b b)
    (by
      intro d _ b₁ _ b₂
      by_cases h : b₁ = b₂
      · subst h; rfl
      · exact Finmap.insert_insert_of_ne d h)
    dst src

/-- Go `loadSnap`. -/
def loadSnap (bk : Book) (s : snapshot) : Book :=
  { bids := loadSide bk.bids s.Bids, asks := loadSide bk.asks s.Asks }

/-- Body of the loop of `apply` for one change `ch`. -/
def applyChange (sscan : String → Option ℚ) (bk : Book) (ch : List String) : Option Book := do
  let side ← ch[0]?
  let pxStr ← ch[1]?
  let szStr ← ch[2]?
  let px := strToF sscan pxStr
  let sz := strToF sscan szStr
  if side = "buy" then
    if sz = 0 then
      pure { bk with bids := bk.bids.erase px }
    else
      pure { bk with bids := bk.bids.insert px sz }
  else
    if sz = 0 then
      pure { bk with asks := bk.asks.erase px }
    else
      pure { bk with asks := bk.asks.insert px sz }

/-- The loop of `apply`: `for _, ch := range u.Changes { ... }`. -/
def applyChanges (sscan : String → Option ℚ) : Book → List (List String) → Option Book
  | bk, [] => some bk
  | bk, ch :: rest =>
    match applyChange sscan bk ch with
    | none => none
    | some bk' => applyChanges sscan bk' rest

/-- The cross detector at the end of `apply`. -/
def crossCheck (unixNano : String → Int) (bk : Book) (ts : String) : Option CrossEvent :=
  let bestBid := maxKey bk.bids
  let bestAsk := minKey bk.asks
  if bestBid ≥ bestAsk ∧ bestBid > 0 ∧ bestAsk > 0 then
    some { timestamp := unixNano ts, bestBid := bestBid, bestAsk := bestAsk }
  else
    none

/-- Go `apply`: the book after the batch and the cross record printed, if any. -/
def apply (sscan : String → Option ℚ) (unixNano : String → Int)
    (bk : Book) (u : l2update) (ts : String) : Option (Book × Option CrossEvent) :=
  match applyChanges sscan bk u.Changes with
  | none => none
  | some bk' => some (bk', crossCheck unixNano bk' ts)

/-! ## Vocabulary used to state the properties -/

/-- A change the loop of `apply` can read: it has the three fields
`ch[0]`, `ch[1]`, `ch[2]` (side, price, size). -/
def WellFormed (ch : List String) : Prop := 3 ≤ ch.length

instance (ch : List String) : Decidable (WellFormed ch) := by
  unfold WellFormed; infer_instance

/-- Whether `apply` sends the change to the bid map: `ch[0] == "buy"`. -/
def chIsBuy (ch : List String) : Bool := decide (ch.getD 0 "" = "buy")

/-- The price of a change, `strToF(ch[1])`. -/
def chPrice (sscan : String → Option ℚ) (ch : List String) : ℚ := strToF sscan (ch.getD 1 "")

/-- The size of a change, `strToF(ch[2])`. -/
def chSize (sscan : String → Option ℚ) (ch : List String) : ℚ := strToF sscan (ch.getD 2 "")

/-- The change `ch` names the level `(side, p)`; `buy = true` is the bid side. -/
def Names (sscan : String → Option ℚ) (ch : List String) (buy : Bool) (p : ℚ) : Prop :=
  chIsBuy ch = buy ∧ chPrice sscan ch = p

instance (sscan : String → Option ℚ) (ch : List String) (buy : Bool) (p : ℚ) :
    Decidable (Names sscan ch buy p) := by
  unfold Names; infer_instance

/-- The size stored at price `p` on one side of the book, if any. -/
def Book.level (bk : Book) (buy : Bool) (p : ℚ) : Option ℚ :=
  if buy then bk.bids.lookup p else bk.asks.lookup p

/-- What one pass of the loop of `apply` does to one map. -/
def setLevel (m : PriceMap) (px sz : ℚ) : PriceMap :=
  if sz = 0 then m.erase px else m.insert px sz

/-- What one pass of the loop of `apply` does to the book when the change is
well formed (see `applyChange_eq`). -/
def stepBook (sscan : String → Option ℚ) (bk : Book) (ch : List String) : Book :=
  if chIsBuy ch then
    { bk with bids := setLevel bk.bids (chPrice sscan ch) (chSize sscan ch) }
  else
    { bk with asks := setLevel bk.asks (chPrice sscan ch) (chSize sscan ch) }

/-- The price `k` is stored in `m` and no stored price is higher: the best bid
of the spec when `m` is the bid side. -/
def IsMaxKey (m : PriceMap) (k : ℚ) : Prop := k ∈ m ∧ ∀ j ∈ m, j ≤ k

/-- The price `k` is stored in `m` and no stored price is lower: the best ask
of the spec when `m` is the ask side. -/
def IsMinKey (m : PriceMap) (k : ℚ) : Prop := k ∈ m ∧ ∀ j ∈ m, k ≤ j

/-- The presence-checked cross predicate of the spec: both sides are
non-empty, `B` is the maximum bid price, `A` the minimum ask price, `B >= A`. -/
def Crossed (bk : Book) (B A : ℚ) : Prop :=
  IsMaxKey bk.bids B ∧ IsMinKey bk.asks A ∧ B ≥ A

/-- One message of the feed, as the loop of `main` dispatches it on `m.Type`:
`"snapshot"` goes to `loadSnap`, `"l2update"` to `apply`. -/
inductive Op where
  | snap (s : snapshot)
  | update (u : l2update) (ts : String)

/-- One pass of the loop of `main` on a message. -/
def stepOp (sscan : String → Option ℚ) (unixNano : String → Int) (bk : Book) :
    Op → Option Book
  | Op.snap s => some (loadSnap bk s)
  | Op.update u ts =>
    match apply sscan unixNano bk u ts with
    | none => none
    | some r => some r.1

/-- The loop of `main` on a finite sequence of messages. -/
def runOps (sscan : String → Option ℚ) (unixNano : String → Int) :
    Book → List Op → Option Book
  | bk, [] => some bk
  | bk, op :: rest =>
    match stepOp sscan unixNano bk op with
    | none => none
    | some bk' => runOps sscan unixNano bk' rest

/-- Every stored size of the map is `>= 0`. -/
def SizesNonneg (m : PriceMap) : Prop := ∀ k v, m.lookup k = some v → 0 ≤ v

/-- Every stored size of the map is `> 0`. -/
def SizesPos (m : PriceMap) : Prop := ∀ k v, m.lookup k = some v → 0 < v

/-- No stored level of the book has size `<= 0`. -/
def Book.SizesPos (bk : Book) : Prop := OrderBook.SizesPos bk.bids ∧ OrderBook.SizesPos bk.asks

/-- A valid operation in the words of the spec: a snapshot whose sizes are all
`>= 0`, or a batch of well-formed changes whose sizes are all `>= 0`. -/
def ValidOp (sscan : String → Option ℚ) : Op → Prop
  | Op.snap s => SizesNonneg s.Bids ∧ SizesNonneg s.Asks
  | Op.update u _ => ∀ ch ∈ u.Changes, WellFormed ch ∧ 0 ≤ chSize sscan ch

/-- A valid operation with strictly positive snapshot sizes: a snapshot whose
sizes are all `> 0`, or a batch of well-formed changes whose sizes are all
`>= 0`. -/
def ValidOpPos (sscan : String → Option ℚ) : Op → Prop
  | Op.snap s => SizesPos s.Bids ∧ SizesPos s.Asks
  | Op.update u _ => ∀ ch ∈ u.Changes, WellFormed ch ∧ 0 ≤ chSize sscan ch

/-- No stored size of the map is `0`. -/
def SizesNonzero (m : PriceMap) : Prop := ∀ k v, m.lookup k = some v → v ≠ 0

/-- No stored level of the book has size `0`. -/
def Book.SizesNonzero (bk : Book) : Prop :=
  OrderBook.SizesNonzero bk.bids ∧ OrderBook.SizesNonzero bk.asks

/-- The spec's `best_bid()`: `None` when the bid side is empty, otherwise the
maximum price resting on it. -/
def specBestBid (m : PriceMap) : Option ℚ :=
  if h : m.keys.Nonempty then some (m.keys.max' h) else none

/-- The spec's `best_ask()`: `None` when the ask side is empty, otherwise the
minimum price resting on it. -/
def specBestAsk (m : PriceMap) : Option ℚ :=
  if h : m.keys.Nonempty then some (m.keys.min' h) else none

/-- The spec's presence-checked cross predicate: `Some(CrossEvent)` when
`best_bid` and `best_ask` both exist and `best_bid >= best_ask`, otherwise
`None`. -/
def specCross (unixNano : String → Int) (bk : Book) (ts : String) : Option CrossEvent :=
  match specBestBid bk.bids, specBestAsk bk.asks with
  | some b, some a =>
    if b ≥ a then some { timestamp := unixNano ts, bestBid := b, bestAsk := a } else none
  | _, _ => none

/-- The cross decision of a run of `apply` without its timestamp: the book,
and the reported best bid and best ask if a cross was reported. -/
def decision (r : Option (Book × Option CrossEvent)) : Option (Book × Option (ℚ × ℚ)) :=
  r.map fun x => (x.1, x.2.map fun e => (e.bestBid, e.bestAsk))

/-- A scanner for the decimal strings of the examples below; on each of them
it returns the number `fmt.Sscan` reads. -/
def sampleScan : String → Option ℚ
  | "0" => some 0
  | "1" => some 1
  | "1.0" => some 1
  | "-1.0" => some (-1)
  | "-2.0" => some (-2)
  | "1.5" => some 1.5
  | "2.0" => some 2
  | "3.0" => some 3
  | "99.0" => some 99
  | "100.0" => some 100
  | "101.0" => some 101
  | "101.5" => some 101.5
  | "102.0" => some 102
  | "1e12" => some 1e12
  | _ => none

/-- A stand-in for `time.Parse(time.RFC3339, ts)` followed by `UnixNano()`. -/
def sampleNano : String → Int := fun _ => 0

/-- A scanner for the strings of the examples with prices at and above 1e12;
on each of them it returns the number `fmt.Sscan` reads. -/
def wideScan : String → Option ℚ
  | "0" => some 0
  | "1.0" => some 1
  | "1e12" => some 1e12
  | "1.5e12" => some 1.5e12
  | "2e12" => some 2e12
  | _ => none

/-! ## The same program on floats with NaN

`fmt.Sscan` reads the string `NaN` without error, and NaN is the one `float64`
that differs from itself.  The definitions above are the program on numbers;
the definitions of this section are the same functions of `main.go` on floats
that may be NaN, so that a NaN price or size can be followed through `apply`.
-/

/-- A `float64` as `==`, `<`, `>`, `>=` see it: NaN or a number. -/
inductive F64 where
  | nan
  | num (q : ℚ)
  deriving DecidableEq

/-- Go `a == b` on `float64`: false as soon as one side is NaN. -/
def F64.eq : F64 → F64 → Bool
  | F64.num a, F64.num b => decide (a = b)
  | _, _ => false

/-- Go `a > b` on `float64`: false as soon as one side is NaN. -/
def F64.gt : F64 → F64 → Bool
  | F64.num a, F64.num b => decide (a > b)
  | _, _ => false

/-- Go `a < b` on `float64`: false as soon as one side is NaN. -/
def F64.lt : F64 → F64 → Bool
  | F64.num a, F64.num b => decide (a < b)
  | _, _ => false

/-- Go `a >= b` on `float64`: false as soon as one side is NaN. -/
def F64.ge : F64 → F64 → Bool
  | F64.num a, F64.num b => decide (a ≥ b)
  | _, _ => false

/-- Go `map[float64]float64` with NaN keys.  A key that is a number is found
by `==`, so the entries under numbers form a finite map (`nums`).  A NaN key
equals no key, itself included: every `m[NaN] = v` adds one more entry, and
no lookup or `delete` reaches it; `nans` holds the values of these entries. -/
structure FloatMap where
  nums : Finmap (fun _ : ℚ => F64)
  nans : Multiset F64
  deriving DecidableEq

/-- Go `make(map[float64]float64)`. -/
def FloatMap.empty : FloatMap := { nums := ∅, nans := 0 }

/-- Go `m[k] = v`. -/
def FloatMap.set (m : FloatMap) (k v : F64) : FloatMap :=
  match k with
  | F64.nan => { m with nans := v ::ₘ m.nans }
  | F64.num q => { m with nums := m.nums.insert q v }

/-- Go `delete(m, k)`. -/
def FloatMap.delete (m : FloatMap) (k : F64) : FloatMap :=
  match k with
  | F64.nan => m
  | F64.num q => { m with nums := m.nums.erase q }

/-- Go `v, ok := m[k]`. -/
def FloatMap.get (m : FloatMap) (k : F64) : Option F64 :=
  match k with
  | F64.nan => none
  | F64.num q => m.nums.lookup q

/-- Go `len(m)`. -/
def FloatMap.len (m : FloatMap) : Nat := m.nums.keys.card + Multiset.card m.nans

/-- The global `book` with maps that may hold NaN. -/
structure FloatBook where
  bids : FloatMap
  asks : FloatMap
  deriving DecidableEq

/-- The book at process start. -/
def emptyFloatBook : FloatBook := { bids := FloatMap.empty, asks := FloatMap.empty }

/-- The record printed by `apply`, on floats. -/
structure FloatCrossEvent where
  timestamp : Int
  bestBid : F64
  bestAsk : F64
  deriving DecidableEq

/-- Go `strToF` with a scanner that may read NaN. -/
def strToF64 (scan : String → Option F64) (s : String) : F64 :=
  match scan s with
  | some f => f
  | none => F64.num 0

/-- Body of the loop of `maxKey` on floats: `if k > max { max = k }`. -/
def maxStepF (max k : F64) : F64 := if F64.gt k max then k else max

/-- Body of the loop of `minKey` on floats: `if k < min { min = k }`. -/
def minStepF (min k : F64) : F64 := if F64.lt k min then k else min

instance : RightCommutative maxStepF :=
  ⟨by
    intro b a₁ a₂
    cases b <;> cases a₁ <;> cases a₂ <;> simp only [maxStepF, F64.gt] <;>
      split_ifs <;> simp_all [F64.gt] <;> linarith⟩

instance : RightCommutative minStepF :=
  ⟨by
    intro b a₁ a₂
    cases b <;> cases a₁ <;> cases a₂ <;> simp only [minStepF, F64.lt] <;>
      split_ifs <;> simp_all [F64.lt] <;> linarith⟩

/-- The keys `for k := range m` runs over, in no particular order: the
numbers, and one NaN for each entry stored under NaN. -/
def FloatMap.keys (m : FloatMap) : Multiset F64 :=
  m.nums.keys.val.map F64.num + m.nans.map fun _ => F64.nan

/-- Go `maxKey` on floats: `max := 0.0; for k := range m { if k > max { max = k } }`. -/
def maxKeyF (m : FloatMap) : F64 := Multiset.foldl maxStepF (F64.num 0) m.keys

/-- Go `minKey` on floats: `min := 1e12; for k := range m { if k < min { min = k } }`. -/
def minKeyF (m : FloatMap) : F64 := Multiset.foldl minStepF (F64.num 1e12) m.keys

/-- Body of the loop of `apply` for one change, on floats. -/
def applyChangeF (scan : String → Option F64) (bk : FloatBook) (ch : List String) :
    Option FloatBook := do
  let side ← ch[0]?
  let pxStr ← ch[1]?
  let szStr ← ch[2]?
  let px := strToF64 scan pxStr
  let sz := strToF64 scan szStr
  if side = "buy" then
    if F64.eq sz (F64.num 0) then
      pure { bk with bids := bk.bids.delete px }
    else
      pure { bk with bids := bk.bids.set px sz }
  else
    if F64.eq sz (F64.num 0) then
      pure { bk with asks := bk.asks.delete px }
    else
      pure { bk with asks := bk.asks.set px sz }

/-- The loop of `apply`, on floats. -/
def applyChangesF (scan : String → Option F64) :
    FloatBook → List (List String) → Option FloatBook
  | bk, [] => some bk
  | bk, ch :: rest =>
    match applyChangeF scan bk ch with
    | none => none
    | some bk' => applyChangesF scan bk' rest

/-- The cross detector at the end of `apply`, on floats. -/
def crossCheckF (unixNano : String → Int) (bk : FloatBook) (ts : String) :
    Option FloatCrossEvent :=
  let bestBid := maxKeyF bk.bids
  let bestAsk := minKeyF bk.asks
  if F64.ge bestBid bestAsk && F64.gt bestBid (F64.num 0) && F64.gt bestAsk (F64.num 0) then
    some { timestamp := unixNano ts, bestBid := bestBid, bestAsk := bestAsk }
  else
    none

/-- Go `apply`, on floats. -/
def applyF (scan : String → Option F64) (unixNano : String → Int)
    (bk : FloatBook) (u : l2update) (ts : String) :
    Option (FloatBook × Option FloatCrossEvent) :=
  match applyChangesF scan bk u.Changes with
  | none => none
  | some bk' => some (bk', crossCheckF unixNano bk' ts)

/-- The price of a change on floats, `strToF(ch[1])`. -/
def chPriceF (scan : String → Option F64) (ch : List String) : F64 :=
  strToF64 scan (ch.getD 1 "")

/-- The size of a change on floats, `strToF(ch[2])`. -/
def chSizeF (scan : String → Option F64) (ch : List String) : F64 :=
  strToF64 scan (ch.getD 2 "")

/-- The change `ch` names the level `(side, p)`, on floats. -/
def NamesF (scan : String → Option F64) (ch : List String) (buy : Bool) (p : F64) : Prop :=
  chIsBuy ch = buy ∧ chPriceF scan ch = p

instance (scan : String → Option F64) (ch : List String) (buy : Bool) (p : F64) :
    Decidable (NamesF scan ch buy p) := by
  unfold NamesF; infer_instance

/-- What `v, ok := book.bids[p]` (or `book.asks[p]`) finds. -/
def FloatBook.level (bk : FloatBook) (buy : Bool) (p : F64) : Option F64 :=
  if buy then bk.bids.get p else bk.asks.get p

/-- What one pass of the loop of `apply` does to one map, on floats. -/
def setLevelF (m : FloatMap) (px sz : F64) : FloatMap :=
  if F64.eq sz (F64.num 0) then m.delete px else m.set px sz

/-- What one pass of the loop of `apply` does to the book when the change is
well formed, on floats (see `applyChangeF_eq`). -/
def stepBookF (scan : String → Option F64) (bk : FloatBook) (ch : List String) : FloatBook :=
  if chIsBuy ch then
    { bk with bids := setLevelF bk.bids (chPriceF scan ch) (chSizeF scan ch) }
  else
    { bk with asks := setLevelF bk.asks (chPriceF scan ch) (chSizeF scan ch) }

/-- A scanner that reads numbers only, seen as a scanner of floats. -/
def liftScan (sscan : String → Option ℚ) (s : String) : Option F64 :=
  (sscan s).map F64.num

/-- The map on floats `fm` holds no entry under NaN and holds, under numbers,
the entries of the map on numbers `m`. -/
def MapAgrees (m : PriceMap) (fm : FloatMap) : Prop :=
  fm.nans = 0 ∧ ∀ q, fm.nums.lookup q = (m.lookup q).map F64.num

/-- The two sides of the books agree. -/
def BookAgrees (bk : Book) (fbk : FloatBook) : Prop :=
  MapAgrees bk.bids fbk.bids ∧ MapAgrees bk.asks fbk.asks

/-- A cross record on numbers, seen as a cross record on floats. -/
def CrossEvent.toFloat (e : CrossEvent) : FloatCrossEvent :=
  { timestamp := e.timestamp, bestBid := F64.num e.bestBid, bestAsk := F64.num e.bestAsk }

/-- The results of `apply` on numbers and of `apply` on floats agree: both
fault, or both return, with books that agree and the same cross record. -/
def ResultAgrees : Option (Book × Option CrossEvent) →
    Option (FloatBook × Option FloatCrossEvent) → Prop
  | some r, some fr => BookAgrees r.1 fr.1 ∧ fr.2 = r.2.map CrossEvent.toFloat
  | none, none => True
  | _, _ => False

/-- The scanner of the examples extended with the string `NaN`, which
`fmt.Sscan` reads as NaN. -/
def floatScan (s : String) : Option F64 :=
  if s = "NaN" then some F64.nan else (sampleScan s).map F64.num

/-! ## The two scans -/

theorem foldl_maxStep_spec (l : List (Sigma fun _ : ℚ => ℚ)) (d : ℚ) :
    d ≤ l.foldl (fun d e => maxStep d e.1 e.2) d ∧
    (∀ e ∈ l, e.1 ≤ l.foldl (fun d e => maxStep d e.1 e.2) d) ∧
    (l.foldl (fun d e => maxStep d e.1 e.2) d = d ∨
      ∃ e ∈ l, e.1 = l.foldl (fun d e => maxStep d e.1 e.2) d) := by
  induction l generalizing d with
  | nil => simp
  | cons x xs ih =>
    obtain ⟨h1, h2, h3⟩ := ih (maxStep d x.1 x.2)
    have hd : d ≤ maxStep d x.1 x.2 := by
      unfold maxStep; split_ifs with h
      · exact le_of_lt h
      · exact le_refl d
    have hx : x.1 ≤ maxStep d x.1 x.2 := by
      unfold maxStep; split_ifs with h
      · exact le_refl _
      · exact not_lt.mp h
    have hc : maxStep d x.1 x.2 = d ∨ maxStep d x.1 x.2 = x.1 := by
      unfold maxStep; split_ifs <;> simp
    simp only [List.foldl_cons, List.mem_cons]
    refine ⟨le_trans hd h1, ?_, ?_⟩
    · rintro e (rfl | he)
      · exact le_trans hx h1
      · exact h2 e he
    · rcases h3 with h3 | ⟨e, he, h3⟩
      · rcases hc with hc | hc
        · left; rw [h3, hc]
        · right; exact ⟨x, Or.inl rfl, by rw [h3, hc]⟩
      · right; exact ⟨e, Or.inr he, h3⟩

theorem foldl_minStep_spec (l : List (Sigma fun _ : ℚ => ℚ)) (d : ℚ) :
    l.foldl (fun d e => minStep d e.1 e.2) d ≤ d ∧
    (∀ e ∈ l, l.foldl (fun d e => minStep d e.1 e.2) d ≤ e.1) ∧
    (l.foldl (fun d e => minStep d e.1 e.2) d = d ∨
      ∃ e ∈ l, e.1 = l.foldl (fun d e => minStep d e.1 e.2) d) := by
  induction l generalizing d with
  | nil => simp
  | cons x xs ih =>
    obtain ⟨h1, h2, h3⟩ := ih (minStep d x.1 x.2)
    have hd : minStep d x.1 x.2 ≤ d := by
      unfold minStep; split_ifs with h
      · exact le_of_lt h
      · exact le_refl d
    have hx : minStep d x.1 x.2 ≤ x.1 := by
      unfold minStep; split_ifs with h
      · exact le_refl _
      · exact not_lt.mp h
    have hc : minStep d x.1 x.2 = d ∨ minStep d x.1 x.2 = x.1 := by
      unfold minStep; split_ifs <;> simp
    simp only [List.foldl_cons, List.mem_cons]
    refine ⟨le_trans h1 hd, ?_, ?_⟩
    · rintro e (rfl | he)
      · exact le_trans h1 hx
      · exact h2 e he
    · rcases h3 with h3 | ⟨e, he, h3⟩
      · rcases hc with hc | hc
        · left; rw [h3, hc]
        · right; exact ⟨x, Or.inl rfl, by rw [h3, hc]⟩
      · right; exact ⟨e, Or.inr he, h3⟩

theorem mem_iff_entry (a : AList fun _ : ℚ => ℚ) (k : ℚ) :
    k ∈ a.toFinmap ↔ ∃ e ∈ a.entries, e.1 = k := by
  rw [Finmap.mem_toFinmap, AList.mem_keys, AList.keys, List.keys, List.mem_map]

theorem maxKey_toFinmap (a : AList fun _ : ℚ => ℚ) :
    maxKey a.toFinmap = a.entries.foldl (fun d e => maxStep d e.1 e.2) 0 := rfl

theorem minKey_toFinmap (a : AList fun _ : ℚ => ℚ) :
    minKey a.toFinmap = a.entries.foldl (fun d e => minStep d e.1 e.2) 1e12 := rfl

theorem maxKey_nonneg (m : PriceMap) : 0 ≤ maxKey m :=
  Finmap.induction_on m fun a => by
    rw [maxKey_toFinmap]; exact (foldl_maxStep_spec a.entries 0).1

theorem le_maxKey (m : PriceMap) (k : ℚ) (hk : k ∈ m) : k ≤ maxKey m := by
  revert hk
  refine Finmap.induction_on m fun a => ?_
  intro hk
  obtain ⟨e, he, rfl⟩ := (mem_iff_entry a k).1 hk
  rw [maxKey_toFinmap]; exact (foldl_maxStep_spec a.entries 0).2.1 e he

theorem maxKey_eq_zero_or_mem (m : PriceMap) : maxKey m = 0 ∨ maxKey m ∈ m :=
  Finmap.induction_on m fun a => by
    rw [maxKey_toFinmap]
    rcases (foldl_maxStep_spec a.entries 0).2.2 with h | ⟨e, he, h⟩
    · exact Or.inl h
    · right; rw [← h]; exact (mem_iff_entry a e.1).2 ⟨e, he, rfl⟩

theorem minKey_le_sentinel (m : PriceMap) : minKey m ≤ 1e12 :=
  Finmap.induction_on m fun a => by
    rw [minKey_toFinmap]; exact (foldl_minStep_spec a.entries 1e12).1

theorem minKey_le (m : PriceMap) (k : ℚ) (hk : k ∈ m) : minKey m ≤ k := by
  revert hk
  refine Finmap.induction_on m fun a => ?_
  intro hk
  obtain ⟨e, he, rfl⟩ := (mem_iff_entry a k).1 hk
  rw [minKey_toFinmap]; exact (foldl_minStep_spec a.entries 1e12).2.1 e he

theorem minKey_eq_sentinel_or_mem (m : PriceMap) : minKey m = 1e12 ∨ minKey m ∈ m :=
  Finmap.induction_on m fun a => by
    rw [minKey_toFinmap]
    rcases (foldl_minStep_spec a.entries 1e12).2.2 with h | ⟨e, he, h⟩
    · exact Or.inl h
    · right; rw [← h]; exact (mem_iff_entry a e.1).2 ⟨e, he, rfl⟩

/-! ## The snapshot loader -/

theorem lookup_foldl_insert (l : List (Sigma fun _ : ℚ => ℚ)) (d : PriceMap) (p : ℚ) :
    ((∃ e ∈ l, e.2 = p) →
      Finmap.lookup p (l.foldl (fun (m : PriceMap) e => m.insert e.2 e.2) d) = some p) ∧
    ((∀ e ∈ l, e.2 ≠ p) →
      Finmap.lookup p (l.foldl (fun (m : PriceMap) e => m.insert e.2 e.2) d) =
        Finmap.lookup p d) := by
  induction l generalizing d with
  | nil => simp
  | cons x xs ih =>
    obtain ⟨ih1, ih2⟩ := ih (d.insert x.2 x.2)
    simp only [List.foldl_cons, List.mem_cons]
    constructor
    · rintro ⟨e, he, hp⟩
      by_cases hxs : ∃ e ∈ xs, e.2 = p
      · exact ih1 hxs
      · have hxs' : ∀ e ∈ xs, e.2 ≠ p := fun e he h => hxs ⟨e, he, h⟩
        rw [ih2 hxs']
        rcases he with rfl | he
        · rw [hp]; exact Finmap.lookup_insert d
        · exact absurd hp (hxs' e he)
    · intro h
      rw [ih2 (fun e he => h e (Or.inr he))]
      exact Finmap.lookup_insert_of_ne d (fun hp => h x (Or.inl rfl) hp.symm)

theorem loadSide_toFinmap (dst : PriceMap) (a : AList fun _ : ℚ => ℚ) :
    loadSide dst a.toFinmap =
      a.entries.foldl (fun (m : PriceMap) e => m.insert e.2 e.2) dst := rfl

theorem value_iff_entry (a : AList fun _ : ℚ => ℚ) (v : ℚ) :
    (∃ k, Finmap.lookup k a.toFinmap = some v) ↔ ∃ e ∈ a.entries, e.2 = v := by
  constructor
  · rintro ⟨k, hk⟩
    rw [Finmap.lookup_toFinmap] at hk
    exact ⟨⟨k, v⟩, AList.mem_lookup_iff.1 hk, rfl⟩
  · rintro ⟨⟨k, w⟩, he, rfl⟩
    exact ⟨k, by rw [Finmap.lookup_toFinmap]; exact AList.mem_lookup_iff.2 he⟩

/-- After one loop of the loader, a number that is the SIZE of some entry of
the source map is stored as key and as value. -/
theorem lookup_loadSide_of_value (dst src : PriceMap) (v : ℚ)
    (h : ∃ k, Finmap.lookup k src = some v) :
    Finmap.lookup v (loadSide dst src) = some v := by
  revert h
  refine Finmap.induction_on src fun a => ?_
  intro h
  rw [loadSide_toFinmap]
  exact (lookup_foldl_insert a.entries dst v).1 ((value_iff_entry a v).1 h)

/-- After one loop of the loader, a key that is the size of no entry of the
source map is as it was. -/
theorem lookup_loadSide_of_not_value (dst src : PriceMap) (p : ℚ)
    (h : ∀ k, Finmap.lookup k src ≠ some p) :
    Finmap.lookup p (loadSide dst src) = Finmap.lookup p dst := by
  revert h
  refine Finmap.induction_on src fun a => ?_
  intro h
  rw [loadSide_toFinmap]
  refine (lookup_foldl_insert a.entries dst p).2 fun e he hp => ?_
  obtain ⟨k, hk⟩ := (value_iff_entry a p).2 ⟨e, he, hp⟩
  exact h k hk

/-! ## The loop of apply -/

theorem applyChange_eq (sscan : String → Option ℚ) (bk : Book) (ch : List String)
    (h : WellFormed ch) : applyChange sscan bk ch = some (stepBook sscan bk ch) := by
  unfold WellFormed at h
  match ch, h with
  | a :: b :: c :: rest, _ =>
    by_cases hs : a = "buy" <;> by_cases hz : strToF sscan c = 0 <;>
      simp [applyChange, stepBook, setLevel, chIsBuy, chPrice, chSize, hs, hz]

theorem applyChange_none (sscan : String → Option ℚ) (bk : Book) (ch : List String)
    (h : ¬ WellFormed ch) : applyChange sscan bk ch = none := by
  unfold WellFormed at h
  match ch, h with
  | [], _ => rfl
  | [_], _ => rfl
  | [_, _], _ => rfl
  | _ :: _ :: _ :: rest, h => exact absurd (by simp) h

theorem applyChanges_eq (sscan : String → Option ℚ) (bk : Book) (chs : List (List String))
    (h : ∀ ch ∈ chs, WellFormed ch) :
    applyChanges sscan bk chs = some (chs.foldl (stepBook sscan) bk) := by
  induction chs generalizing bk with
  | nil => rfl
  | cons ch rest ih =>
    rw [applyChanges, applyChange_eq sscan bk ch (h ch (List.mem_cons_self _ _))]
    exact ih _ (fun c hc => h c (List.mem_cons_of_mem _ hc))

theorem apply_eq (sscan : String → Option ℚ) (unixNano : String → Int) (bk : Book)
    (u : l2update) (ts : String) (h : ∀ ch ∈ u.Changes, WellFormed ch) :
    apply sscan unixNano bk u ts =
      some (u.Changes.foldl (stepBook sscan) bk,
        crossCheck unixNano (u.Changes.foldl (stepBook sscan) bk) ts) := by
  rw [apply, applyChanges_eq sscan bk u.Changes h]

theorem level_setLevel_same (m : PriceMap) (px sz : ℚ) :
    Finmap.lookup px (setLevel m px sz) = if sz = 0 then none else some sz := by
  unfold setLevel
  split_ifs
  · exact Finmap.lookup_erase px m
  · exact Finmap.lookup_insert m

theorem level_setLevel_other (m : PriceMap) (px sz p : ℚ) (h : p ≠ px) :
    Finmap.lookup p (setLevel m px sz) = Finmap.lookup p m := by
  unfold setLevel
  split_ifs
  · exact Finmap.lookup_erase_ne h
  · exact Finmap.lookup_insert_of_ne m h

theorem level_stepBook_named (sscan : String → Option ℚ) (bk : Book) (ch : List String)
    (buy : Bool) (p : ℚ) (h : Names sscan ch buy p) :
    (stepBook sscan bk ch).level buy p =
      if chSize sscan ch = 0 then none else some (chSize sscan ch) := by
  obtain ⟨hb, hp⟩ := h
  subst hb hp
  unfold stepBook Book.level
  cases hbuy : chIsBuy ch <;> simp [level_setLevel_same]

theorem level_stepBook_frame (sscan : String → Option ℚ) (bk : Book) (ch : List String)
    (buy : Bool) (p : ℚ) (h : ¬ Names sscan ch buy p) :
    (stepBook sscan bk ch).level buy p = bk.level buy p := by
  unfold Names at h
  unfold stepBook Book.level
  cases hbuy : chIsBuy ch <;> cases buy <;> simp_all <;>
    exact level_setLevel_other _ _ _ _ (fun hp => h hp.symm)

theorem level_foldl_frame (sscan : String → Option ℚ) (bk : Book) (chs : List (List String))
    (buy : Bool) (p : ℚ) (h : ∀ ch ∈ chs, ¬ Names sscan ch buy p) :
    (chs.foldl (stepBook sscan) bk).level buy p = bk.level buy p := by
  induction chs generalizing bk with
  | nil => rfl
  | cons ch rest ih =>
    rw [List.foldl_cons, ih _ (fun c hc => h c (List.mem_cons_of_mem _ hc))]
    exact level_stepBook_frame sscan bk ch buy p (h ch (List.mem_cons_self _ _))

theorem level_foldl_last (sscan : String → Option ℚ) (bk : Book)
    (pre post : List (List String)) (c : List String) (buy : Bool) (p : ℚ)
    (hc : Names sscan c buy p) (hpost : ∀ ch ∈ post, ¬ Names sscan ch buy p) :
    ((pre ++ c :: post).foldl (stepBook sscan) bk).level buy p =
      if chSize sscan c = 0 then none else some (chSize sscan c) := by
  rw [List.foldl_append, List.foldl_cons, level_foldl_frame sscan _ post buy p hpost]
  exact level_stepBook_named sscan _ c buy p hc

theorem Book.ext_level (b₁ b₂ : Book) (h : ∀ buy p, b₁.level buy p = b₂.level buy p) :
    b₁ = b₂ := by
  cases b₁ with
  | mk bids₁ asks₁ =>
    cases b₂ with
    | mk bids₂ asks₂ =>
      have hb : bids₁ = bids₂ := Finmap.ext_lookup fun p => by
        simpa [Book.level] using h true p
      have ha : asks₁ = asks₂ := Finmap.ext_lookup fun p => by
        simpa [Book.level] using h false p
      rw [hb, ha]

/-! ## The cross detector -/

theorem sentinel_pos : (0 : ℚ) < 1e12 := by norm_num

theorem isMaxKey_maxKey (m : PriceMap) (h : ∃ k ∈ m, 0 ≤ k) : IsMaxKey m (maxKey m) := by
  refine ⟨?_, fun j hj => le_maxKey m j hj⟩
  rcases maxKey_eq_zero_or_mem m with h0 | hm
  · obtain ⟨k, hk, hk0⟩ := h
    have hle : k ≤ maxKey m := le_maxKey m k hk
    rw [h0] at hle
    have hk' : k = 0 := le_antisymm hle hk0
    rw [h0, ← hk']; exact hk
  · exact hm

theorem isMinKey_minKey (m : PriceMap) (h : ∃ k ∈ m, k ≤ 1e12) : IsMinKey m (minKey m) := by
  refine ⟨?_, fun j hj => minKey_le m j hj⟩
  rcases minKey_eq_sentinel_or_mem m with h0 | hm
  · obtain ⟨k, hk, hk0⟩ := h
    have hle : minKey m ≤ k := minKey_le m k hk
    rw [h0] at hle
    have hk' : k = 1e12 := le_antisymm hk0 hle
    rw [h0, ← hk']; exact hk
  · exact hm

theorem crossCheck_eq_some (unixNano : String → Int) (bk : Book) (ts : String) (e : CrossEvent)
    (h : crossCheck unixNano bk ts = some e) :
    e.bestBid = maxKey bk.bids ∧ e.bestAsk = minKey bk.asks ∧
      maxKey bk.bids ≥ minKey bk.asks ∧ maxKey bk.bids > 0 ∧ minKey bk.asks > 0 := by
  unfold crossCheck at h
  simp only at h
  split_ifs at h with hc
  cases h
  exact ⟨rfl, rfl, hc.1, hc.2.1, hc.2.2⟩

theorem crossCheck_of_range (unixNano : String → Int) (bk : Book) (ts : String)
    (hb : ∀ p ∈ bk.bids, p < 1e12) (ha : ∀ p ∈ bk.asks, 0 < p ∧ p ≤ 1e12) :
    ((crossCheck unixNano bk ts).isSome ↔ ∃ B A, Crossed bk B A) ∧
      ∀ e, crossCheck unixNano bk ts = some e → Crossed bk e.bestBid e.bestAsk := by
  have key : ∀ e, crossCheck unixNano bk ts = some e → Crossed bk e.bestBid e.bestAsk := by
    intro e he
    obtain ⟨h1, h2, h3, h4, _⟩ := crossCheck_eq_some unixNano bk ts e he
    rw [h1, h2]
    have hmem : maxKey bk.bids ∈ bk.bids := by
      rcases maxKey_eq_zero_or_mem bk.bids with h0 | hm
      · rw [h0] at h4; exact absurd h4 (lt_irrefl 0)
      · exact hm
    have hmem' : minKey bk.asks ∈ bk.asks := by
      rcases minKey_eq_sentinel_or_mem bk.asks with h0 | hm
      · have := hb _ hmem
        rw [h0] at h3
        exact absurd (lt_of_le_of_lt h3 this) (lt_irrefl _)
      · exact hm
    exact ⟨⟨hmem, fun j hj => le_maxKey _ j hj⟩, ⟨hmem', fun j hj => minKey_le _ j hj⟩, h3⟩
  refine ⟨⟨fun h => ?_, ?_⟩, key⟩
  · obtain ⟨e, he⟩ := Option.isSome_iff_exists.1 h
    exact ⟨_, _, key e he⟩
  · rintro ⟨B, A, ⟨hB, _⟩, ⟨hA, _⟩, hBA⟩
    have h1 : B ≤ maxKey bk.bids := le_maxKey _ B hB
    have h2 : minKey bk.asks ≤ A := minKey_le _ A hA
    have h3 : 0 < A := (ha A hA).1
    have h4 : 0 < minKey bk.asks := by
      rcases minKey_eq_sentinel_or_mem bk.asks with h0 | hm
      · rw [h0]; exact sentinel_pos
      · exact (ha _ hm).1
    have hc : maxKey bk.bids ≥ minKey bk.asks ∧ maxKey bk.bids > 0 ∧ minKey bk.asks > 0 :=
      ⟨le_trans h2 (le_trans hBA h1), lt_of_lt_of_le h3 (le_trans hBA h1), h4⟩
    simp [crossCheck, hc]

theorem exists_last_named (sscan : String → Option ℚ) (buy : Bool) (p : ℚ)
    (chs : List (List String)) (h : ∃ ch ∈ chs, Names sscan ch buy p) :
    ∃ pre c post, chs = pre ++ c :: post ∧ Names sscan c buy p ∧
      ∀ ch ∈ post, ¬ Names sscan ch buy p := by
  induction chs with
  | nil => simp at h
  | cons x xs ih =>
    by_cases hxs : ∃ ch ∈ xs, Names sscan ch buy p
    · obtain ⟨pre, c, post, rfl, hc, hpost⟩ := ih hxs
      exact ⟨x :: pre, c, post, rfl, hc, hpost⟩
    · obtain ⟨ch, hch, hn⟩ := h
      rcases List.mem_cons.1 hch with rfl | hch
      · exact ⟨[], ch, xs, rfl, hn, fun c hc hcn => hxs ⟨c, hc, hcn⟩⟩
      · exact absurd ⟨ch, hch, hn⟩ hxs

theorem level_stepBook_congr (sscan : String → Option ℚ) (b₁ b₂ : Book) (ch : List String)
    (buy : Bool) (p : ℚ) (h : b₁.level buy p = b₂.level buy p) :
    (stepBook sscan b₁ ch).level buy p = (stepBook sscan b₂ ch).level buy p := by
  by_cases hn : Names sscan ch buy p
  · rw [level_stepBook_named sscan b₁ ch buy p hn, level_stepBook_named sscan b₂ ch buy p hn]
  · rw [level_stepBook_frame sscan b₁ ch buy p hn, level_stepBook_frame sscan b₂ ch buy p hn, h]

theorem level_foldl_congr (sscan : String → Option ℚ) (chs : List (List String))
    (b₁ b₂ : Book) (buy : Bool) (p : ℚ) (h : b₁.level buy p = b₂.level buy p) :
    (chs.foldl (stepBook sscan) b₁).level buy p =
      (chs.foldl (stepBook sscan) b₂).level buy p := by
  induction chs generalizing b₁ b₂ with
  | nil => exact h
  | cons ch rest ih =>
    rw [List.foldl_cons, List.foldl_cons]
    exact ih _ _ (level_stepBook_congr sscan b₁ b₂ ch buy p h)

theorem foldl_stepBook_idem (sscan : String → Option ℚ) (chs : List (List String))
    (bk : Book) :
    chs.foldl (stepBook sscan) (chs.foldl (stepBook sscan) bk) =
      chs.foldl (stepBook sscan) bk := by
  refine Book.ext_level _ _ fun buy p => ?_
  by_cases h : ∃ ch ∈ chs, Names sscan ch buy p
  · obtain ⟨pre, c, post, rfl, hc, hpost⟩ := exists_last_named sscan buy p chs h
    rw [level_foldl_last sscan _ pre post c buy p hc hpost,
      level_foldl_last sscan bk pre post c buy p hc hpost]
  · exact level_foldl_frame sscan _ chs buy p (fun ch hch hn => h ⟨ch, hch, hn⟩)

theorem sizesPos_setLevel (m : PriceMap) (px sz : ℚ) (hm : SizesPos m) (hsz : 0 ≤ sz) :
    SizesPos (setLevel m px sz) := by
  intro k v hkv
  by_cases hk : k = px
  · subst hk
    rw [level_setLevel_same] at hkv
    split_ifs at hkv with h0
    cases hkv
    exact lt_of_le_of_ne hsz (Ne.symm h0)
  · rw [level_setLevel_other m px sz k hk] at hkv
    exact hm k v hkv

theorem sizesPos_stepBook (sscan : String → Option ℚ) (bk : Book) (ch : List String)
    (hbk : bk.SizesPos) (hsz : 0 ≤ chSize sscan ch) : (stepBook sscan bk ch).SizesPos := by
  unfold stepBook
  split_ifs
  · exact ⟨sizesPos_setLevel _ _ _ hbk.1 hsz, hbk.2⟩
  · exact ⟨hbk.1, sizesPos_setLevel _ _ _ hbk.2 hsz⟩

theorem sizesPos_foldl (sscan : String → Option ℚ) (chs : List (List String)) (bk : Book)
    (hbk : bk.SizesPos) (hsz : ∀ ch ∈ chs, 0 ≤ chSize sscan ch) :
    (chs.foldl (stepBook sscan) bk).SizesPos := by
  induction chs generalizing bk with
  | nil => exact hbk
  | cons ch rest ih =>
    rw [List.foldl_cons]
    exact ih _ (sizesPos_stepBook sscan bk ch hbk (hsz ch (List.mem_cons_self _ _)))
      (fun c hc => hsz c (List.mem_cons_of_mem _ hc))

theorem sizesPos_loadSide (dst src : PriceMap) (hd : SizesPos dst) (hs : SizesPos src) :
    SizesPos (loadSide dst src) := by
  intro p v hpv
  by_cases h : ∃ k, Finmap.lookup k src = some p
  · rw [lookup_loadSide_of_value dst src p h] at hpv
    cases hpv
    obtain ⟨k, hk⟩ := h
    exact hs k p hk
  · rw [lookup_loadSide_of_not_value dst src p (fun k hk => h ⟨k, hk⟩)] at hpv
    exact hd p v hpv

theorem sizesPos_stepOp (sscan : String → Option ℚ) (unixNano : String → Int) (bk : Book)
    (op : Op) (hbk : bk.SizesPos) (hop : ValidOpPos sscan op) :
    ∃ bk', stepOp sscan unixNano bk op = some bk' ∧ bk'.SizesPos := by
  cases op with
  | snap s =>
    exact ⟨_, rfl, sizesPos_loadSide _ _ hbk.1 hop.1, sizesPos_loadSide _ _ hbk.2 hop.2⟩
  | update u ts =>
    refine ⟨u.Changes.foldl (stepBook sscan) bk, ?_, ?_⟩
    · rw [stepOp, apply_eq sscan unixNano bk u ts (fun ch hch => (hop ch hch).1)]
    · exact sizesPos_foldl sscan u.Changes bk hbk (fun ch hch => (hop ch hch).2)

theorem sizesPos_runOps (sscan : String → Option ℚ) (unixNano : String → Int)
    (ops : List Op) (bk : Book) (hbk : bk.SizesPos) (hops : ∀ op ∈ ops, ValidOpPos sscan op) :
    ∃ bk', runOps sscan unixNano bk ops = some bk' ∧ bk'.SizesPos := by
  induction ops generalizing bk with
  | nil => exact ⟨bk, rfl, hbk⟩
  | cons op rest ih =>
    obtain ⟨b₁, h₁, hb₁⟩ :=
      sizesPos_stepOp sscan unixNano bk op hbk (hops op (List.mem_cons_self _ _))
    obtain ⟨b₂, h₂, hb₂⟩ := ih b₁ hb₁ (fun o ho => hops o (List.mem_cons_of_mem _ ho))
    exact ⟨b₂, by rw [runOps, h₁]; exact h₂, hb₂⟩

theorem sizesPos_emptyBook : emptyBook.SizesPos := by
  constructor <;> intro k v h <;> simp [emptyBook] at h

theorem sizesPos_singleton (k v : ℚ) (hv : 0 < v) :
    SizesPos (Finmap.singleton k v : PriceMap) := by
  intro j w h
  have hmem : j ∈ (Finmap.singleton k v : PriceMap) := Finmap.mem_of_lookup_eq_some h
  have hj : j = k := (Finmap.mem_singleton j k v).1 hmem
  subst hj
  rw [Finmap.lookup_singleton_eq] at h
  cases h
  exact hv

theorem sizesNonneg_singleton (k v : ℚ) (hv : 0 ≤ v) :
    SizesNonneg (Finmap.singleton k v : PriceMap) := by
  intro j w h
  have hmem : j ∈ (Finmap.singleton k v : PriceMap) := Finmap.mem_of_lookup_eq_some h
  have hj : j = k := (Finmap.mem_singleton j k v).1 hmem
  subst hj
  rw [Finmap.lookup_singleton_eq] at h
  cases h
  exact hv

theorem sizesPos_empty : SizesPos (∅ : PriceMap) := by
  intro k v h; simp at h

theorem sizesNonneg_empty : SizesNonneg (∅ : PriceMap) := by
  intro k v h; simp at h

/-! ## The loop of apply on floats with NaN -/

theorem applyChangeF_eq (scan : String → Option F64) (bk : FloatBook) (ch : List String)
    (h : WellFormed ch) : applyChangeF scan bk ch = some (stepBookF scan bk ch) := by
  unfold WellFormed at h
  match ch, h with
  | a :: b :: c :: rest, _ =>
    by_cases hs : a = "buy" <;> cases hz : F64.eq (strToF64 scan c) (F64.num 0) <;>
      simp [applyChangeF, stepBookF, setLevelF, chIsBuy, chPriceF, chSizeF, hs, hz]

theorem applyChangesF_eq (scan : String → Option F64) (bk : FloatBook)
    (chs : List (List String)) (h : ∀ ch ∈ chs, WellFormed ch) :
    applyChangesF scan bk chs = some (chs.foldl (stepBookF scan) bk) := by
  induction chs generalizing bk with
  | nil => rfl
  | cons ch rest ih =>
    rw [applyChangesF, applyChangeF_eq scan bk ch (h ch (List.mem_cons_self _ _))]
    exact ih _ (fun c hc => h c (List.mem_cons_of_mem _ hc))

theorem applyF_eq (scan : String → Option F64) (unixNano : String → Int) (bk : FloatBook)
    (u : l2update) (ts : String) (h : ∀ ch ∈ u.Changes, WellFormed ch) :
    applyF scan unixNano bk u ts =
      some (u.Changes.foldl (stepBookF scan) bk,
        crossCheckF unixNano (u.Changes.foldl (stepBookF scan) bk) ts) := by
  rw [applyF, applyChangesF_eq scan bk u.Changes h]

theorem get_setLevelF_same (m : FloatMap) (p : ℚ) (sz : F64) :
    (setLevelF m (F64.num p) sz).get (F64.num p) =
      if F64.eq sz (F64.num 0) then none else some sz := by
  unfold setLevelF
  split_ifs
  · exact Finmap.lookup_erase p m.nums
  · exact Finmap.lookup_insert m.nums

theorem get_setLevelF_other (m : FloatMap) (px sz : F64) (p : ℚ) (h : px ≠ F64.num p) :
    (setLevelF m px sz).get (F64.num p) = m.get (F64.num p) := by
  unfold setLevelF
  cases px with
  | nan => split_ifs <;> rfl
  | num q =>
    have hq : p ≠ q := fun hpq => h (by rw [hpq])
    split_ifs
    · exact Finmap.lookup_erase_ne hq
    · exact Finmap.lookup_insert_of_ne m.nums hq

theorem nans_setLevelF (m : FloatMap) (px sz : F64) (h : px ≠ F64.nan) :
    (setLevelF m px sz).nans = m.nans := by
  unfold setLevelF
  cases px with
  | nan => exact absurd rfl h
  | num q => split_ifs <;> rfl

theorem levelF_stepBookF_named (scan : String → Option F64) (bk : FloatBook)
    (ch : List String) (buy : Bool) (p : ℚ) (h : NamesF scan ch buy (F64.num p)) :
    (stepBookF scan bk ch).level buy (F64.num p) =
      if F64.eq (chSizeF scan ch) (F64.num 0) then none else some (chSizeF scan ch) := by
  obtain ⟨hb, hp⟩ := h
  subst hb
  unfold stepBookF FloatBook.level
  rw [hp]
  cases hbuy : chIsBuy ch <;> simp [get_setLevelF_same]

theorem levelF_stepBookF_frame (scan : String → Option F64) (bk : FloatBook)
    (ch : List String) (buy : Bool) (p : ℚ) (h : ¬ NamesF scan ch buy (F64.num p)) :
    (stepBookF scan bk ch).level buy (F64.num p) = bk.level buy (F64.num p) := by
  unfold NamesF at h
  unfold stepBookF FloatBook.level
  cases hbuy : chIsBuy ch <;> cases buy <;> simp_all <;>
    exact get_setLevelF_other _ _ _ _ h

theorem levelF_foldl_frame (scan : String → Option F64) (bk : FloatBook)
    (chs : List (List String)) (buy : Bool) (p : ℚ)
    (h : ∀ ch ∈ chs, ¬ NamesF scan ch buy (F64.num p)) :
    (chs.foldl (stepBookF scan) bk).level buy (F64.num p) = bk.level buy (F64.num p) := by
  induction chs generalizing bk with
  | nil => rfl
  | cons ch rest ih =>
    rw [List.foldl_cons, ih _ (fun c hc => h c (List.mem_cons_of_mem _ hc))]
    exact levelF_stepBookF_frame scan bk ch buy p (h ch (List.mem_cons_self _ _))

theorem levelF_foldl_last (scan : String → Option F64) (bk : FloatBook)
    (pre post : List (List String)) (c : List String) (buy : Bool) (p : ℚ)
    (hc : NamesF scan c buy (F64.num p))
    (hpost : ∀ ch ∈ post, ¬ NamesF scan ch buy (F64.num p)) :
    ((pre ++ c :: post).foldl (stepBookF scan) bk).level buy (F64.num p) =
      if F64.eq (chSizeF scan c) (F64.num 0) then none else some (chSizeF scan c) := by
  rw [List.foldl_append, List.foldl_cons, levelF_foldl_frame scan _ post buy p hpost]
  exact levelF_stepBookF_named scan _ c buy p hc

theorem exists_last_namedF (scan : String → Option F64) (buy : Bool) (p : F64)
    (chs : List (List String)) (h : ∃ ch ∈ chs, NamesF scan ch buy p) :
    ∃ pre c post, chs = pre ++ c :: post ∧ NamesF scan c buy p ∧
      ∀ ch ∈ post, ¬ NamesF scan ch buy p := by
  induction chs with
  | nil => simp at h
  | cons x xs ih =>
    by_cases hxs : ∃ ch ∈ xs, NamesF scan ch buy p
    · obtain ⟨pre, c, post, rfl, hc, hpost⟩ := ih hxs
      exact ⟨x :: pre, c, post, rfl, hc, hpost⟩
    · obtain ⟨ch, hch, hn⟩ := h
      rcases List.mem_cons.1 hch with rfl | hch
      · exact ⟨[], ch, xs, rfl, hn, fun c hc hcn => hxs ⟨c, hc, hcn⟩⟩
      · exact absurd ⟨ch, hch, hn⟩ hxs

theorem nans_stepBookF (scan : String → Option F64) (bk : FloatBook) (ch : List String)
    (h : chPriceF scan ch ≠ F64.nan) :
    (stepBookF scan bk ch).bids.nans = bk.bids.nans ∧
      (stepBookF scan bk ch).asks.nans = bk.asks.nans := by
  unfold stepBookF
  split_ifs
  · exact ⟨nans_setLevelF _ _ _ h, rfl⟩
  · exact ⟨rfl, nans_setLevelF _ _ _ h⟩

theorem nans_foldl (scan : String → Option F64) (chs : List (List String)) (bk : FloatBook)
    (h : ∀ ch ∈ chs, chPriceF scan ch ≠ F64.nan) :
    (chs.foldl (stepBookF scan) bk).bids.nans = bk.bids.nans ∧
      (chs.foldl (stepBookF scan) bk).asks.nans = bk.asks.nans := by
  induction chs generalizing bk with
  | nil => exact ⟨rfl, rfl⟩
  | cons ch rest ih =>
    rw [List.foldl_cons]
    obtain ⟨h1, h2⟩ := ih (stepBookF scan bk ch) (fun c hc => h c (List.mem_cons_of_mem _ hc))
    obtain ⟨h3, h4⟩ := nans_stepBookF scan bk ch (h ch (List.mem_cons_self _ _))
    exact ⟨h1.trans h3, h2.trans h4⟩

theorem floatBook_ext (b₁ b₂ : FloatBook)
    (h : ∀ buy (p : ℚ), b₁.level buy (F64.num p) = b₂.level buy (F64.num p))
    (hb : b₁.bids.nans = b₂.bids.nans) (ha : b₁.asks.nans = b₂.asks.nans) : b₁ = b₂ := by
  cases b₁ with
  | mk bids₁ asks₁ =>
    cases b₂ with
    | mk bids₂ asks₂ =>
      cases bids₁ with
      | mk n₁ s₁ =>
        cases bids₂ with
        | mk n₂ s₂ =>
          cases asks₁ with
          | mk m₁ t₁ =>
            cases asks₂ with
            | mk m₂ t₂ =>
              have h1 : n₁ = n₂ := Finmap.ext_lookup fun p => by
                simpa [FloatBook.level, FloatMap.get] using h true p
              have h2 : m₁ = m₂ := Finmap.ext_lookup fun p => by
                simpa [FloatBook.level, FloatMap.get] using h false p
              simp only at hb ha
              rw [h1, h2, hb, ha]

theorem foldl_stepBookF_idem (scan : String → Option F64) (chs : List (List String))
    (bk : FloatBook) (h : ∀ ch ∈ chs, chPriceF scan ch ≠ F64.nan) :
    chs.foldl (stepBookF scan) (chs.foldl (stepBookF scan) bk) =
      chs.foldl (stepBookF scan) bk := by
  refine floatBook_ext _ _ (fun buy p => ?_) (nans_foldl scan chs _ h).1
    (nans_foldl scan chs _ h).2
  by_cases hn : ∃ ch ∈ chs, NamesF scan ch buy (F64.num p)
  · obtain ⟨pre, c, post, rfl, hc, hpost⟩ := exists_last_namedF scan buy (F64.num p) chs hn
    rw [levelF_foldl_last scan _ pre post c buy p hc hpost,
      levelF_foldl_last scan bk pre post c buy p hc hpost]
  · exact levelF_foldl_frame scan _ chs buy p (fun ch hch hc => hn ⟨ch, hch, hc⟩)

/-! ## The program on numbers is the program on floats without NaN -/

theorem strToF64_liftScan (sscan : String → Option ℚ) (s : String) :
    strToF64 (liftScan sscan) s = F64.num (strToF sscan s) := by
  unfold strToF64 liftScan strToF
  cases sscan s <;> rfl

theorem mapAgrees_setLevel (m : PriceMap) (fm : FloatMap) (px sz : ℚ) (h : MapAgrees m fm) :
    MapAgrees (setLevel m px sz) (setLevelF fm (F64.num px) (F64.num sz)) := by
  obtain ⟨h0, hl⟩ := h
  refine ⟨by rw [nans_setLevelF fm _ _ (by simp), h0], fun q => ?_⟩
  have hget : ∀ (x : FloatMap) (r : ℚ), x.nums.lookup r = x.get (F64.num r) := fun _ _ => rfl
  by_cases hq : q = px
  · subst hq
    rw [hget, get_setLevelF_same, level_setLevel_same]
    by_cases hz : sz = 0 <;> simp [F64.eq, hz]
  · rw [hget, get_setLevelF_other fm _ _ q (fun hc => hq (F64.num.inj hc).symm),
      level_setLevel_other m px sz q hq]
    exact hl q

theorem bookAgrees_stepBook (sscan : String → Option ℚ) (bk : Book) (fbk : FloatBook)
    (ch : List String) (h : BookAgrees bk fbk) :
    BookAgrees (stepBook sscan bk ch) (stepBookF (liftScan sscan) fbk ch) := by
  have hp : chPriceF (liftScan sscan) ch = F64.num (chPrice sscan ch) :=
    strToF64_liftScan sscan _
  have hs : chSizeF (liftScan sscan) ch = F64.num (chSize sscan ch) :=
    strToF64_liftScan sscan _
  unfold stepBook stepBookF
  rw [hp, hs]
  split_ifs
  · exact ⟨mapAgrees_setLevel _ _ _ _ h.1, h.2⟩
  · exact ⟨h.1, mapAgrees_setLevel _ _ _ _ h.2⟩

theorem applyChangeF_none (scan : String → Option F64) (bk : FloatBook) (ch : List String)
    (h : ¬ WellFormed ch) : applyChangeF scan bk ch = none := by
  unfold WellFormed at h
  match ch, h with
  | [], _ => rfl
  | [_], _ => rfl
  | [_, _], _ => rfl
  | _ :: _ :: _ :: rest, h => exact absurd (by simp) h

theorem applyChanges_agree (sscan : String → Option ℚ) (chs : List (List String))
    (bk : Book) (fbk : FloatBook) (h : BookAgrees bk fbk) :
    (applyChanges sscan bk chs = none ∧ applyChangesF (liftScan sscan) fbk chs = none) ∨
    ∃ b fb, applyChanges sscan bk chs = some b ∧
      applyChangesF (liftScan sscan) fbk chs = some fb ∧ BookAgrees b fb := by
  induction chs generalizing bk fbk with
  | nil => exact Or.inr ⟨bk, fbk, rfl, rfl, h⟩
  | cons ch rest ih =>
    by_cases hwf : WellFormed ch
    · rw [applyChanges, applyChangesF, applyChange_eq sscan bk ch hwf,
        applyChangeF_eq (liftScan sscan) fbk ch hwf]
      exact ih _ _ (bookAgrees_stepBook sscan bk fbk ch h)
    · rw [applyChanges, applyChangesF, applyChange_none sscan bk ch hwf,
        applyChangeF_none (liftScan sscan) fbk ch hwf]
      exact Or.inl ⟨rfl, rfl⟩

theorem foldl_maxStepF_spec (s : Multiset ℚ) (d : ℚ) :
    ∃ r, Multiset.foldl maxStepF (F64.num d) (s.map F64.num) = F64.num r ∧ d ≤ r ∧
      (∀ k ∈ s, k ≤ r) ∧ (r = d ∨ r ∈ s) := by
  induction s using Multiset.induction_on generalizing d with
  | empty => exact ⟨d, rfl, le_refl d, fun k hk => absurd hk (Multiset.not_mem_zero k), Or.inl rfl⟩
  | cons a s ih =>
    rw [Multiset.map_cons, Multiset.foldl_cons]
    by_cases ha : a > d
    · have hstep : maxStepF (F64.num d) (F64.num a) = F64.num a := by
        simp [maxStepF, F64.gt, ha]
      obtain ⟨r, hr, h1, h2, h3⟩ := ih a
      refine ⟨r, by rw [hstep]; exact hr, le_trans (le_of_lt ha) h1, ?_, ?_⟩
      · intro k hk
        rcases Multiset.mem_cons.1 hk with rfl | hk
        · exact h1
        · exact h2 k hk
      · rcases h3 with h3 | h3
        · exact Or.inr (Multiset.mem_cons.2 (Or.inl h3))
        · exact Or.inr (Multiset.mem_cons.2 (Or.inr h3))
    · have hstep : maxStepF (F64.num d) (F64.num a) = F64.num d := by
        simp [maxStepF, F64.gt, ha]
      obtain ⟨r, hr, h1, h2, h3⟩ := ih d
      refine ⟨r, by rw [hstep]; exact hr, h1, ?_, ?_⟩
      · intro k hk
        rcases Multiset.mem_cons.1 hk with rfl | hk
        · exact le_trans (not_lt.1 ha) h1
        · exact h2 k hk
      · rcases h3 with h3 | h3
        · exact Or.inl h3
        · exact Or.inr (Multiset.mem_cons.2 (Or.inr h3))

theorem foldl_minStepF_spec (s : Multiset ℚ) (d : ℚ) :
    ∃ r, Multiset.foldl minStepF (F64.num d) (s.map F64.num) = F64.num r ∧ r ≤ d ∧
      (∀ k ∈ s, r ≤ k) ∧ (r = d ∨ r ∈ s) := by
  induction s using Multiset.induction_on generalizing d with
  | empty => exact ⟨d, rfl, le_refl d, fun k hk => absurd hk (Multiset.not_mem_zero k), Or.inl rfl⟩
  | cons a s ih =>
    rw [Multiset.map_cons, Multiset.foldl_cons]
    by_cases ha : a < d
    · have hstep : minStepF (F64.num d) (F64.num a) = F64.num a := by
        simp [minStepF, F64.lt, ha]
      obtain ⟨r, hr, h1, h2, h3⟩ := ih a
      refine ⟨r, by rw [hstep]; exact hr, le_trans h1 (le_of_lt ha), ?_, ?_⟩
      · intro k hk
        rcases Multiset.mem_cons.1 hk with rfl | hk
        · exact h1
        · exact h2 k hk
      · rcases h3 with h3 | h3
        · exact Or.inr (Multiset.mem_cons.2 (Or.inl h3))
        · exact Or.inr (Multiset.mem_cons.2 (Or.inr h3))
    · have hstep : minStepF (F64.num d) (F64.num a) = F64.num d := by
        simp [minStepF, F64.lt, ha]
      obtain ⟨r, hr, h1, h2, h3⟩ := ih d
      refine ⟨r, by rw [hstep]; exact hr, h1, ?_, ?_⟩
      · intro k hk
        rcases Multiset.mem_cons.1 hk with rfl | hk
        · exact le_trans h1 (not_lt.1 ha)
        · exact h2 k hk
      · rcases h3 with h3 | h3
        · exact Or.inl h3
        · exact Or.inr (Multiset.mem_cons.2 (Or.inr h3))

theorem mem_of_mapAgrees (m : PriceMap) (fm : FloatMap) (h : MapAgrees m fm) (q : ℚ) :
    q ∈ fm.nums.keys.val ↔ q ∈ m := by
  have hk : q ∈ fm.nums.keys.val ↔ q ∈ fm.nums := Finmap.mem_keys
  rw [hk, ← Finmap.lookup_isSome, ← Finmap.lookup_isSome, h.2 q]
  cases Finmap.lookup q m <;> simp

theorem keys_of_mapAgrees (m : PriceMap) (fm : FloatMap) (h : MapAgrees m fm) :
    fm.keys = fm.nums.keys.val.map F64.num := by
  unfold FloatMap.keys
  rw [h.1]
  simp

theorem maxKeyF_of_mapAgrees (m : PriceMap) (fm : FloatMap) (h : MapAgrees m fm) :
    maxKeyF fm = F64.num (maxKey m) := by
  unfold maxKeyF
  rw [keys_of_mapAgrees m fm h]
  obtain ⟨r, hr, h1, h2, h3⟩ := foldl_maxStepF_spec fm.nums.keys.val 0
  rw [hr]
  congr 1
  refine le_antisymm ?_ ?_
  · rcases h3 with h3 | h3
    · rw [h3]; exact maxKey_nonneg m
    · exact le_maxKey m r ((mem_of_mapAgrees m fm h r).1 h3)
  · rcases maxKey_eq_zero_or_mem m with h0 | hm
    · rw [h0]; exact h1
    · exact h2 _ ((mem_of_mapAgrees m fm h _).2 hm)

theorem minKeyF_of_mapAgrees (m : PriceMap) (fm : FloatMap) (h : MapAgrees m fm) :
    minKeyF fm = F64.num (minKey m) := by
  unfold minKeyF
  rw [keys_of_mapAgrees m fm h]
  obtain ⟨r, hr, h1, h2, h3⟩ := foldl_minStepF_spec fm.nums.keys.val 1e12
  rw [hr]
  congr 1
  refine le_antisymm ?_ ?_
  · rcases minKey_eq_sentinel_or_mem m with h0 | hm
    · rw [h0]; exact h1
    · exact h2 _ ((mem_of_mapAgrees m fm h _).2 hm)
  · rcases h3 with h3 | h3
    · rw [h3]; exact minKey_le_sentinel m
    · exact minKey_le m r ((mem_of_mapAgrees m fm h r).1 h3)

theorem crossCheckF_of_bookAgrees (unixNano : String → Int) (bk : Book) (fbk : FloatBook)
    (ts : String) (h : BookAgrees bk fbk) :
    crossCheckF unixNano fbk ts = (crossCheck unixNano bk ts).map CrossEvent.toFloat := by
  unfold crossCheckF crossCheck
  simp only [maxKeyF_of_mapAgrees _ _ h.1, minKeyF_of_mapAgrees _ _ h.2, F64.ge, F64.gt,
    Bool.and_eq_true, decide_eq_true_eq, and_assoc]
  split_ifs <;> rfl

/-- On a book without NaN and with a scanner that reads numbers only, `apply`
on floats does what `apply` on numbers does: both fault, or both return books
that agree and the same cross record. -/
theorem applyF_agrees_with_apply (sscan : String → Option ℚ) (unixNano : String → Int)
    (bk : Book) (fbk : FloatBook) (u : l2update) (ts : String) (h : BookAgrees bk fbk) :
    ResultAgrees (apply sscan unixNano bk u ts) (applyF (liftScan sscan) unixNano fbk u ts) := by
  unfold apply applyF
  rcases applyChanges_agree sscan u.Changes bk fbk h with ⟨h1, h2⟩ | ⟨b, fb, h1, h2, hb⟩
  · rw [h1, h2]; exact trivial
  · rw [h1, h2]
    exact ⟨hb, crossCheckF_of_bookAgrees unixNano b fb ts hb⟩

theorem crossed_of_crossCheck (unixNano : String → Int) (bk : Book) (ts : String)
    (e : CrossEvent) (hb : ∀ p ∈ bk.bids, p < 1e12)
    (he : crossCheck unixNano bk ts = some e) : Crossed bk e.bestBid e.bestAsk := by
  obtain ⟨h1, h2, h3, h4, _⟩ := crossCheck_eq_some unixNano bk ts e he
  rw [h1, h2]
  have hmem : maxKey bk.bids ∈ bk.bids := by
    rcases maxKey_eq_zero_or_mem bk.bids with h0 | hm
    · rw [h0] at h4; exact absurd h4 (lt_irrefl 0)
    · exact hm
  have hmem' : minKey bk.asks ∈ bk.asks := by
    rcases minKey_eq_sentinel_or_mem bk.asks with h0 | hm
    · have := hb _ hmem
      rw [h0] at h3
      exact absurd (lt_of_le_of_lt h3 this) (lt_irrefl _)
    · exact hm
  exact ⟨⟨hmem, fun j hj => le_maxKey _ j hj⟩, ⟨hmem', fun j hj => minKey_le _ j hj⟩, h3⟩

/-! ## Properties of the program -/

/-- C1 as stated fails: on the empty book the well-formed batch [buy NaN 1.0]
names the bid level at the price its string scans to, and after `apply` the
lookup of that price on the bid side finds nothing, where the claim has it
present with size 1.0: the entry is stored under a NaN key.  A following
[buy NaN 0] does not remove that entry. -/
theorem applyF_nan_level_not_found :
    NamesF floatScan ["buy", "NaN", "1.0"] true F64.nan ∧
    applyF floatScan sampleNano emptyFloatBook ⟨[["buy", "NaN", "1.0"]]⟩ "T1" =
      some (⟨⟨∅, {F64.num 1}⟩, FloatMap.empty⟩, none) ∧
    (FloatBook.mk ⟨∅, {F64.num 1}⟩ FloatMap.empty).level true F64.nan = none ∧
    applyF floatScan sampleNano ⟨⟨∅, {F64.num 1}⟩, FloatMap.empty⟩
        ⟨[["buy", "NaN", "0"]]⟩ "T1" =
      some (⟨⟨∅, {F64.num 1}⟩, FloatMap.empty⟩, none) ∧
    FloatMap.len ⟨∅, {F64.num 1}⟩ = 1 := by
  refine ⟨by decide!, by decide!, by decide!, by decide!, by decide!⟩

/-- C1, amended: for every book and every batch of well-formed changes (NaN
prices and sizes allowed anywhere in the batch), after `apply` the level at a
(side, price) whose price is a number, not NaN, and which a change of the
batch names, is decided by the last such change `c` (no change after it names
the same level): absent when the size of `c` is 0, and otherwise present with
exactly the size of `c`. -/
theorem applyF_last_change_wins (scan : String → Option F64) (unixNano : String → Int)
    (bk : FloatBook) (pre post : List (List String)) (c : List String) (ts : String)
    (buy : Bool) (p : ℚ)
    (hwf : ∀ ch ∈ pre ++ c :: post, WellFormed ch)
    (hc : NamesF scan c buy (F64.num p))
    (hpost : ∀ ch ∈ post, ¬ NamesF scan ch buy (F64.num p)) :
    ∃ bk' ev, applyF scan unixNano bk ⟨pre ++ c :: post⟩ ts = some (bk', ev) ∧
      bk'.level buy (F64.num p) =
        if F64.eq (chSizeF scan c) (F64.num 0) then none else some (chSizeF scan c) :=
  ⟨_, _, applyF_eq scan unixNano bk ⟨pre ++ c :: post⟩ ts hwf,
    levelF_foldl_last scan bk pre post c buy p hc hpost⟩

/-- C1 amended, at a batch that sets the bid at 100.0 to 2.0, sets a bid at
NaN, sets the bid at 100.0 to 3.0, then sets the ask at 100.0: the bid at
100.0 ends with size 3.0. -/
theorem applyF_last_change_wins_witness :
    (∀ ch ∈ [["buy", "100.0", "2.0"], ["buy", "NaN", "1.0"]] ++
      ["buy", "100.0", "3.0"] :: [["sell", "100.0", "1.0"]], WellFormed ch) ∧
    NamesF floatScan ["buy", "100.0", "3.0"] true (F64.num 100) ∧
    (∀ ch ∈ [["sell", "100.0", "1.0"]], ¬ NamesF floatScan ch true (F64.num 100)) ∧
    (∃ bk' ev, applyF floatScan sampleNano emptyFloatBook
        ⟨[["buy", "100.0", "2.0"], ["buy", "NaN", "1.0"]] ++
          ["buy", "100.0", "3.0"] :: [["sell", "100.0", "1.0"]]⟩ "T1" = some (bk', ev) ∧
      bk'.level true (F64.num 100) =
        if F64.eq (chSizeF floatScan ["buy", "100.0", "3.0"]) (F64.num 0) then none
        else some (chSizeF floatScan ["buy", "100.0", "3.0"])) ∧
    chSizeF floatScan ["buy", "100.0", "3.0"] = F64.num 3 :=
  ⟨by decide, by decide!, by decide!,
    applyF_last_change_wins floatScan sampleNano emptyFloatBook
      [["buy", "100.0", "2.0"], ["buy", "NaN", "1.0"]] [["sell", "100.0", "1.0"]]
      ["buy", "100.0", "3.0"] "T1" true 100 (by decide) (by decide!) (by decide!),
    by decide!⟩

/-- C2 as stated fails: with a bid at -1.0 and an ask at -2.0 both sides are
non-empty and the maximum bid is >= the minimum ask, yet `apply` reports no
cross event (the guard `bestBid > 0` rejects the sentinel 0 that `maxKey`
returns). -/
theorem apply_misses_cross_at_nonpositive_prices :
    apply sampleScan sampleNano emptyBook
        ⟨[["buy", "-1.0", "1.0"], ["sell", "-2.0", "1.0"]]⟩ "T1" =
      some (⟨Finmap.singleton (-1) 1, Finmap.singleton (-2) 1⟩, none) ∧
    Crossed ⟨Finmap.singleton (-1) 1, Finmap.singleton (-2) 1⟩ (-1) (-2) :=
  ⟨by decide!, by simp [Crossed, IsMaxKey, IsMinKey]⟩

/-- C2, amended: for every book and every batch of well-formed changes such
that after the batch every stored bid price is < 1e12 and every stored ask
price is > 0 and <= 1e12, `apply` reports a cross event if and only if both
sides are non-empty and the maximum bid price is >= the minimum ask price,
and the reported pair is (maximum bid price, minimum ask price). -/
theorem apply_cross_iff_of_range (sscan : String → Option ℚ) (unixNano : String → Int)
    (bk : Book) (u : l2update) (ts : String)
    (hwf : ∀ ch ∈ u.Changes, WellFormed ch) :
    ∃ bk' ev, apply sscan unixNano bk u ts = some (bk', ev) ∧
      ((∀ p ∈ bk'.bids, p < 1e12) → (∀ p ∈ bk'.asks, 0 < p ∧ p ≤ 1e12) →
        ((ev.isSome ↔ ∃ B A, Crossed bk' B A) ∧
          ∀ e, ev = some e → Crossed bk' e.bestBid e.bestAsk)) :=
  ⟨_, _, apply_eq sscan unixNano bk u ts hwf, fun hb ha => crossCheck_of_range unixNano _ ts hb ha⟩

/-- C2 amended, at the batch [sell 101.0 1.5, buy 101.5 3.0] on the empty
book: the stored prices are in range and the cross (101.5, 101.0) is the one
reported. -/
theorem apply_cross_iff_of_range_witness :
    (∀ ch ∈ [["sell", "101.0", "1.5"], ["buy", "101.5", "3.0"]], WellFormed ch) ∧
    (∃ bk' ev, apply sampleScan sampleNano emptyBook
        ⟨[["sell", "101.0", "1.5"], ["buy", "101.5", "3.0"]]⟩ "T1" = some (bk', ev) ∧
      ((∀ p ∈ bk'.bids, p < 1e12) → (∀ p ∈ bk'.asks, 0 < p ∧ p ≤ 1e12) →
        ((ev.isSome ↔ ∃ B A, Crossed bk' B A) ∧
          ∀ e, ev = some e → Crossed bk' e.bestBid e.bestAsk))) ∧
    apply sampleScan sampleNano emptyBook
        ⟨[["sell", "101.0", "1.5"], ["buy", "101.5", "3.0"]]⟩ "T1" =
      some (⟨Finmap.singleton 101.5 3, Finmap.singleton 101 1.5⟩, some ⟨0, 101.5, 101⟩) ∧
    (∀ p ∈ (Finmap.singleton 101.5 3 : PriceMap), p < 1e12) ∧
    (∀ p ∈ (Finmap.singleton 101 1.5 : PriceMap), 0 < p ∧ p ≤ 1e12) :=
  ⟨by decide,
    apply_cross_iff_of_range sampleScan sampleNano emptyBook
      ⟨[["sell", "101.0", "1.5"], ["buy", "101.5", "3.0"]]⟩ "T1" (by decide),
    by decide!,
    by intro p hp; rw [Finmap.mem_singleton] at hp; subst hp; norm_num,
    by intro p hp; rw [Finmap.mem_singleton] at hp; subst hp; norm_num⟩

/-- C3 fails on the code: on the empty book, the batch [buy 1e12 1.0] leaves
the ask side empty, and `apply` reports a cross event with best ask 1e12, the
sentinel `minKey` returns for an empty map (the guard `bestAsk > 0` cannot
see that the ask side is empty). -/
theorem apply_reports_cross_with_empty_asks :
    apply sampleScan sampleNano emptyBook ⟨[["buy", "1e12", "1.0"]]⟩ "T1" =
      some (⟨Finmap.singleton 1e12 1, ∅⟩, some ⟨0, 1e12, 1e12⟩) := by
  decide!

/-- C4 as stated fails: the non-empty bid map with the single price -1.0 has
`maxKey` 0, which is not a key of it; the non-empty ask map with the single
price 2e12 has `minKey` 1e12, which is not a key of it. -/
theorem maxKey_minKey_not_a_key :
    (-1 : ℚ) ∈ (Finmap.singleton (-1) 1 : PriceMap) ∧
    ¬ IsMaxKey (Finmap.singleton (-1) 1) (maxKey (Finmap.singleton (-1) 1)) ∧
    (2000000000000 : ℚ) ∈ (Finmap.singleton 2000000000000 1 : PriceMap) ∧
    ¬ IsMinKey (Finmap.singleton 2000000000000 1)
      (minKey (Finmap.singleton 2000000000000 1)) := by
  have h1 : maxKey (Finmap.singleton (-1) 1) = 0 := by decide!
  have h2 : minKey (Finmap.singleton 2000000000000 1) = 1e12 := by decide!
  refine ⟨by simp, ?_, by simp, ?_⟩
  · rw [h1]; simp [IsMaxKey]
  · rw [h2]; simp [IsMinKey]; norm_num

/-- C4, amended: for every bid map that holds at least one price >= 0,
`maxKey` returns a key of the map that is >= every key; for every ask map
that holds at least one price <= 1e12, `minKey` returns a key of the map that
is <= every key. -/
theorem maxKey_minKey_best (bids asks : PriceMap)
    (hb : ∃ k ∈ bids, 0 ≤ k) (ha : ∃ k ∈ asks, k ≤ 1e12) :
    IsMaxKey bids (maxKey bids) ∧ IsMinKey asks (minKey asks) :=
  ⟨isMaxKey_maxKey bids hb, isMinKey_minKey asks ha⟩

/-- C4 amended, at the bid map with 100.0 and the ask map with 101.0. -/
theorem maxKey_minKey_best_witness :
    (∃ k ∈ (Finmap.singleton 100 2 : PriceMap), 0 ≤ k) ∧
    (∃ k ∈ (Finmap.singleton 101 1.5 : PriceMap), k ≤ 1e12) ∧
    IsMaxKey (Finmap.singleton 100 2) (maxKey (Finmap.singleton 100 2)) ∧
    IsMinKey (Finmap.singleton 101 1.5) (minKey (Finmap.singleton 101 1.5)) :=
  ⟨⟨100, by simp, by norm_num⟩, ⟨101, by simp, by norm_num⟩,
    maxKey_minKey_best (Finmap.singleton 100 2) (Finmap.singleton 101 1.5)
      ⟨100, by simp, by norm_num⟩ ⟨101, by simp, by norm_num⟩⟩

/-- C5 as stated fails: the snapshot with the single bid level (100.0, 0) is a
valid operation (its sizes are all >= 0), and after `loadSnap` on the empty
book the bid side stores a level of size 0. -/
theorem loadSnap_stores_zero_size :
    ValidOp sampleScan (Op.snap ⟨Finmap.singleton 100 0, ∅⟩) ∧
    runOps sampleScan sampleNano emptyBook [Op.snap ⟨Finmap.singleton 100 0, ∅⟩] =
      some ⟨Finmap.singleton 0 0, ∅⟩ ∧
    (Finmap.singleton 0 0 : PriceMap).lookup 0 = some 0 ∧
    ¬ Book.SizesPos ⟨Finmap.singleton 0 0, ∅⟩ := by
  refine ⟨⟨sizesNonneg_singleton 100 0 (le_refl 0), sizesNonneg_empty⟩, by decide!,
    Finmap.lookup_singleton_eq, fun h => ?_⟩
  exact lt_irrefl 0 (h.1 0 0 Finmap.lookup_singleton_eq)

/-- C5, amended: starting from the empty book, after any finite sequence of
operations that are `loadSnap` with a snapshot whose sizes are all > 0 or
`apply` with a batch of well-formed changes whose sizes are all >= 0, every
operation completes and no stored level on either side has size <= 0. -/
theorem sizes_positive_after_valid_ops (sscan : String → Option ℚ)
    (unixNano : String → Int) (ops : List Op)
    (hops : ∀ op ∈ ops, ValidOpPos sscan op) :
    ∃ bk, runOps sscan unixNano emptyBook ops = some bk ∧ bk.SizesPos :=
  sizesPos_runOps sscan unixNano ops emptyBook sizesPos_emptyBook hops

/-- C5 amended, at the snapshot {100.0 -> 2.0} / {101.0 -> 1.5} followed by the
batch [buy 101.5 3.0]. -/
theorem sizes_positive_after_valid_ops_witness :
    (∀ op ∈ [Op.snap ⟨Finmap.singleton 100 2, Finmap.singleton 101 1.5⟩,
        Op.update ⟨[["buy", "101.5", "3.0"]]⟩ "T1"], ValidOpPos sampleScan op) ∧
    ∃ bk, runOps sampleScan sampleNano emptyBook
        [Op.snap ⟨Finmap.singleton 100 2, Finmap.singleton 101 1.5⟩,
          Op.update ⟨[["buy", "101.5", "3.0"]]⟩ "T1"] = some bk ∧ bk.SizesPos := by
  have hops : ∀ op ∈ [Op.snap ⟨Finmap.singleton 100 2, Finmap.singleton 101 1.5⟩,
      Op.update ⟨[["buy", "101.5", "3.0"]]⟩ "T1"], ValidOpPos sampleScan op := by
    intro op hop
    simp only [List.mem_cons, List.mem_singleton, List.not_mem_nil, or_false] at hop
    rcases hop with rfl | rfl
    · exact ⟨sizesPos_singleton 100 2 (by norm_num), sizesPos_singleton 101 1.5 (by norm_num)⟩
    · intro ch hch
      rw [List.mem_singleton] at hch
      subst hch
      exact ⟨by decide, by decide!⟩
  exact ⟨hops, sizes_positive_after_valid_ops sampleScan sampleNano _ hops⟩

/-- C6 as stated fails: on the empty book `apply` on the well-formed batch
[buy NaN 1.0] leaves one entry on the bid side, and `apply` on the same batch
again leaves two: the second run does not end in the state of the first. -/
theorem applyF_twice_adds_nan_entry :
    applyF floatScan sampleNano emptyFloatBook ⟨[["buy", "NaN", "1.0"]]⟩ "T1" =
      some (⟨⟨∅, {F64.num 1}⟩, FloatMap.empty⟩, none) ∧
    applyF floatScan sampleNano ⟨⟨∅, {F64.num 1}⟩, FloatMap.empty⟩
        ⟨[["buy", "NaN", "1.0"]]⟩ "T1" =
      some (⟨⟨∅, {F64.num 1, F64.num 1}⟩, FloatMap.empty⟩, none) ∧
    FloatBook.mk ⟨∅, {F64.num 1, F64.num 1}⟩ FloatMap.empty ≠
      FloatBook.mk ⟨∅, {F64.num 1}⟩ FloatMap.empty ∧
    FloatMap.len ⟨∅, {F64.num 1}⟩ = 1 ∧
    FloatMap.len ⟨∅, {F64.num 1, F64.num 1}⟩ = 2 := by
  refine ⟨by decide!, by decide!, by decide!, by decide!, by decide!⟩

/-- C6, amended: for every book (entries under NaN included) and every batch
of well-formed changes none of whose prices is NaN (the same level may be
named more than once, sizes may be NaN), `apply` on the batch and then `apply`
on it again completes both times and the second run leaves the book exactly
as the first run left it. -/
theorem applyF_idempotent (scan : String → Option F64) (unixNano : String → Int)
    (bk : FloatBook) (u : l2update) (ts₁ ts₂ : String)
    (hwf : ∀ ch ∈ u.Changes, WellFormed ch)
    (hnum : ∀ ch ∈ u.Changes, chPriceF scan ch ≠ F64.nan) :
    ∃ bk' ev₁ ev₂, applyF scan unixNano bk u ts₁ = some (bk', ev₁) ∧
      applyF scan unixNano bk' u ts₂ = some (bk', ev₂) := by
  refine ⟨_, _, crossCheckF unixNano (u.Changes.foldl (stepBookF scan) bk) ts₂,
    applyF_eq scan unixNano bk u ts₁ hwf, ?_⟩
  rw [applyF_eq scan unixNano _ u ts₂ hwf, foldl_stepBookF_idem scan u.Changes bk hnum]

/-- C6 amended, on a book that already holds an entry under NaN, at a batch
that names the bid at 100.0 three times (set, remove, set) and the ask at
101.0 once. -/
theorem applyF_idempotent_witness :
    (∀ ch ∈ [["buy", "100.0", "2.0"], ["buy", "100.0", "0"], ["sell", "101.0", "1.5"],
        ["buy", "100.0", "3.0"]], WellFormed ch) ∧
    (∀ ch ∈ [["buy", "100.0", "2.0"], ["buy", "100.0", "0"], ["sell", "101.0", "1.5"],
        ["buy", "100.0", "3.0"]], chPriceF floatScan ch ≠ F64.nan) ∧
    ∃ bk' ev₁ ev₂,
      applyF floatScan sampleNano ⟨⟨∅, {F64.num 1}⟩, FloatMap.empty⟩
        ⟨[["buy", "100.0", "2.0"], ["buy", "100.0", "0"], ["sell", "101.0", "1.5"],
          ["buy", "100.0", "3.0"]]⟩ "T1" = some (bk', ev₁) ∧
      applyF floatScan sampleNano bk'
        ⟨[["buy", "100.0", "2.0"], ["buy", "100.0", "0"], ["sell", "101.0", "1.5"],
          ["buy", "100.0", "3.0"]]⟩ "T2" = some (bk', ev₂) :=
  ⟨by decide, by decide!,
    applyF_idempotent floatScan sampleNano ⟨⟨∅, {F64.num 1}⟩, FloatMap.empty⟩ _ "T1" "T2"
      (by decide) (by decide!)⟩

/-- C7 as stated fails at the price NaN with size 1.0 on the bid side of the
empty book: after [remove, set] the lookup of the price finds nothing, where
the claim has it present with size 1.0; after [set, remove] the entry that was
set is still stored, the book being the one [set] alone leaves. -/
theorem applyF_nan_remove_and_set :
    applyF floatScan sampleNano emptyFloatBook
        ⟨[["buy", "NaN", "0"], ["buy", "NaN", "1.0"]]⟩ "T1" =
      some (⟨⟨∅, {F64.num 1}⟩, FloatMap.empty⟩, none) ∧
    (FloatBook.mk ⟨∅, {F64.num 1}⟩ FloatMap.empty).level true
      (strToF64 floatScan "NaN") = none ∧
    applyF floatScan sampleNano emptyFloatBook
        ⟨[["buy", "NaN", "1.0"], ["buy", "NaN", "0"]]⟩ "T1" =
      some (⟨⟨∅, {F64.num 1}⟩, FloatMap.empty⟩, none) ∧
    applyF floatScan sampleNano emptyFloatBook ⟨[["buy", "NaN", "1.0"]]⟩ "T1" =
      some (⟨⟨∅, {F64.num 1}⟩, FloatMap.empty⟩, none) ∧
    FloatMap.len ⟨∅, {F64.num 1}⟩ = 1 := by
  refine ⟨by decide!, by decide!, by decide!, by decide!, by decide!⟩

/-- C7, amended: for every book, side string, price `p` that is a number (not
NaN) and non-zero size, the batch [remove p, set p to s] on that side leaves
`p` present with size `s`, and the batch with the two changes reversed,
[set p to s, remove p], leaves `p` absent from that side. -/
theorem applyF_order_sensitive (scan : String → Option F64) (unixNano : String → Int)
    (bk : FloatBook) (side pxStr zeroStr szStr ts : String) (p : ℚ)
    (hp : strToF64 scan pxStr = F64.num p)
    (hz : F64.eq (strToF64 scan zeroStr) (F64.num 0) = true)
    (hs : F64.eq (strToF64 scan szStr) (F64.num 0) = false) :
    (∃ bk' ev, applyF scan unixNano bk
        ⟨[[side, pxStr, zeroStr], [side, pxStr, szStr]]⟩ ts = some (bk', ev) ∧
      bk'.level (decide (side = "buy")) (F64.num p) = some (strToF64 scan szStr)) ∧
    (∃ bk' ev, applyF scan unixNano bk
        ⟨[[side, pxStr, szStr], [side, pxStr, zeroStr]]⟩ ts = some (bk', ev) ∧
      bk'.level (decide (side = "buy")) (F64.num p) = none) := by
  have hwf : ∀ (a b : List String), a.length = 3 → b.length = 3 →
      ∀ ch ∈ [a, b], WellFormed ch := by
    intro a b ha hb ch hch
    simp only [List.mem_cons, List.mem_singleton, List.not_mem_nil, or_false] at hch
    rcases hch with rfl | rfl
    · exact le_of_eq ha.symm
    · exact le_of_eq hb.symm
  constructor
  · refine ⟨_, _, applyF_eq scan unixNano bk _ ts (hwf _ _ rfl rfl), ?_⟩
    have h := levelF_foldl_last scan bk [[side, pxStr, zeroStr]] [] [side, pxStr, szStr]
      (decide (side = "buy")) p ⟨rfl, hp⟩ (fun _ h => by simp at h)
    rw [show chSizeF scan [side, pxStr, szStr] = strToF64 scan szStr from rfl, hs] at h
    simpa using h
  · refine ⟨_, _, applyF_eq scan unixNano bk _ ts (hwf _ _ rfl rfl), ?_⟩
    have h := levelF_foldl_last scan bk [[side, pxStr, szStr]] [] [side, pxStr, zeroStr]
      (decide (side = "buy")) p ⟨rfl, hp⟩ (fun _ h => by simp at h)
    rw [show chSizeF scan [side, pxStr, zeroStr] = strToF64 scan zeroStr from rfl, hz] at h
    simpa using h

/-- C7 amended, on the empty book at the bid price 100.0 with size 2.0. -/
theorem applyF_order_sensitive_witness :
    strToF64 floatScan "100.0" = F64.num 100 ∧
    F64.eq (strToF64 floatScan "0") (F64.num 0) = true ∧
    F64.eq (strToF64 floatScan "2.0") (F64.num 0) = false ∧
    (∃ bk' ev, applyF floatScan sampleNano emptyFloatBook
        ⟨[["buy", "100.0", "0"], ["buy", "100.0", "2.0"]]⟩ "T1" = some (bk', ev) ∧
      bk'.level (decide ("buy" = "buy")) (F64.num 100) = some (strToF64 floatScan "2.0")) ∧
    (∃ bk' ev, applyF floatScan sampleNano emptyFloatBook
        ⟨[["buy", "100.0", "2.0"], ["buy", "100.0", "0"]]⟩ "T1" = some (bk', ev) ∧
      bk'.level (decide ("buy" = "buy")) (F64.num 100) = none) :=
  ⟨by decide!, by decide!, by decide!,
    applyF_order_sensitive floatScan sampleNano emptyFloatBook
      "buy" "100.0" "0" "2.0" "T1" 100 (by decide!) (by decide!) (by decide!)⟩

/-- C8 fails on the code: after `loadSnap` on the empty book with the snapshot
bids {100.0 -> 2.0}, asks {101.0 -> 1.5}, nothing is stored at the prices
100.0 and 101.0; the loader has stored each SIZE as key and as value, so the
bid side is {2.0 -> 2.0} and the ask side is {1.5 -> 1.5}. -/
theorem loadSnap_stores_size_as_key :
    loadSnap emptyBook ⟨Finmap.singleton 100 2, Finmap.singleton 101 1.5⟩ =
      ⟨Finmap.singleton 2 2, Finmap.singleton 1.5 1.5⟩ ∧
    (loadSnap emptyBook ⟨Finmap.singleton 100 2, Finmap.singleton 101 1.5⟩).bids.lookup 100 =
      none ∧
    (loadSnap emptyBook ⟨Finmap.singleton 100 2, Finmap.singleton 101 1.5⟩).asks.lookup 101 =
      none := by
  refine ⟨by decide!, by decide!, by decide!⟩

/-- C9 fails on the code: after `loadSnap` of bids {100.0 -> 2.0}, asks
{101.0 -> 1.5} on the empty book, `maxKey` of the bid side is 2.0 and `minKey`
of the ask side is 1.5 (not 100.0 and 101.0); `apply` of [buy 101.5 3.0] then
reports the cross event (101.5, 1.5), not (101.5, 101.0). -/
theorem scenario_after_loadSnap :
    maxKey (loadSnap emptyBook ⟨Finmap.singleton 100 2, Finmap.singleton 101 1.5⟩).bids = 2 ∧
    minKey (loadSnap emptyBook ⟨Finmap.singleton 100 2, Finmap.singleton 101 1.5⟩).asks
      = 1.5 ∧
    apply sampleScan sampleNano
        (loadSnap emptyBook ⟨Finmap.singleton 100 2, Finmap.singleton 101 1.5⟩)
        ⟨[["buy", "101.5", "3.0"]]⟩ "T1" =
      some (⟨Finmap.insert 101.5 3 (Finmap.singleton 2 2), Finmap.singleton 1.5 1.5⟩,
        some ⟨sampleNano "T1", 101.5, 1.5⟩) := by
  refine ⟨by decide!, by decide!, by decide!⟩

/-- C10 as stated fails: on the empty book the batch
[buy 99.0 -1.0, sell 102.0 1.0] does not leave the bid side empty; the
negative size is stored at 99.0. -/
theorem apply_stores_negative_size :
    apply sampleScan sampleNano emptyBook
        ⟨[["buy", "99.0", "-1.0"], ["sell", "102.0", "1.0"]]⟩ "T1" =
      some (⟨Finmap.singleton 99 (-1), Finmap.singleton 102 1⟩, none) ∧
    (Finmap.singleton 99 (-1) : PriceMap) ≠ ∅ ∧
    (Finmap.singleton 99 (-1) : PriceMap).lookup 99 = some (-1) := by
  refine ⟨by decide!, by decide!, by decide!⟩

/-- C10, amended: for every book and every batch of well-formed changes, a
change `c` whose size is negative is not skipped: `apply` sets the level at
its (side, price) to that negative size, which is what is stored after the
batch when no later change names the same level; every other level ends as
it does after the batch without `c`, and the cross predicate is evaluated on
the resulting book. -/
theorem apply_negative_size_is_set (sscan : String → Option ℚ) (unixNano : String → Int)
    (bk : Book) (pre post : List (List String)) (c : List String) (ts : String)
    (hwf : ∀ ch ∈ pre ++ c :: post, WellFormed ch)
    (hneg : chSize sscan c < 0)
    (hpost : ∀ ch ∈ post, ¬ Names sscan ch (chIsBuy c) (chPrice sscan c)) :
    ∃ bk' bk'',
      apply sscan unixNano bk ⟨pre ++ c :: post⟩ ts = some (bk', crossCheck unixNano bk' ts) ∧
      bk'.level (chIsBuy c) (chPrice sscan c) = some (chSize sscan c) ∧
      apply sscan unixNano bk ⟨pre ++ post⟩ ts = some (bk'', crossCheck unixNano bk'' ts) ∧
      ∀ buy p, ¬ Names sscan c buy p → bk'.level buy p = bk''.level buy p := by
  have hwf' : ∀ ch ∈ pre ++ post, WellFormed ch := by
    intro ch hch
    rcases List.mem_append.1 hch with h | h
    · exact hwf ch (List.mem_append_left _ h)
    · exact hwf ch (List.mem_append_right _ (List.mem_cons_of_mem _ h))
  refine ⟨_, _, apply_eq sscan unixNano bk ⟨pre ++ c :: post⟩ ts hwf, ?_,
    apply_eq sscan unixNano bk ⟨pre ++ post⟩ ts hwf', ?_⟩
  · have h := level_foldl_last sscan bk pre post c (chIsBuy c) (chPrice sscan c)
      ⟨rfl, rfl⟩ hpost
    rw [if_neg (ne_of_lt hneg)] at h
    exact h
  · intro buy p hn
    show ((pre ++ c :: post).foldl (stepBook sscan) bk).level buy p =
      ((pre ++ post).foldl (stepBook sscan) bk).level buy p
    rw [List.foldl_append, List.foldl_append, List.foldl_cons]
    exact level_foldl_congr sscan post _ _ buy p (level_stepBook_frame sscan _ c buy p hn)

/-- C10 amended, at the batch [buy 99.0 -1.0, sell 102.0 1.0] on the empty
book: the bid side ends as {99.0 -> -1.0} and the ask side as {102.0 -> 1.0}. -/
theorem apply_negative_size_is_set_witness :
    (∀ ch ∈ [] ++ ["buy", "99.0", "-1.0"] :: [["sell", "102.0", "1.0"]], WellFormed ch) ∧
    chSize sampleScan ["buy", "99.0", "-1.0"] < 0 ∧
    (∀ ch ∈ [["sell", "102.0", "1.0"]], ¬ Names sampleScan ch
      (chIsBuy ["buy", "99.0", "-1.0"]) (chPrice sampleScan ["buy", "99.0", "-1.0"])) ∧
    (∃ bk' bk'',
      apply sampleScan sampleNano emptyBook
        ⟨[] ++ ["buy", "99.0", "-1.0"] :: [["sell", "102.0", "1.0"]]⟩ "T1" =
          some (bk', crossCheck sampleNano bk' "T1") ∧
      bk'.level (chIsBuy ["buy", "99.0", "-1.0"]) (chPrice sampleScan ["buy", "99.0", "-1.0"]) =
        some (chSize sampleScan ["buy", "99.0", "-1.0"]) ∧
      apply sampleScan sampleNano emptyBook ⟨[] ++ [["sell", "102.0", "1.0"]]⟩ "T1" =
        some (bk'', crossCheck sampleNano bk'' "T1") ∧
      ∀ buy p, ¬ Names sampleScan ["buy", "99.0", "-1.0"] buy p →
        bk'.level buy p = bk''.level buy p) ∧
    (Book.mk (Finmap.singleton 99 (-1)) (Finmap.singleton 102 1)).level true 99 =
      some (-1) :=
  ⟨by decide, by decide!, by decide,
    apply_negative_size_is_set sampleScan sampleNano emptyBook [] [["sell", "102.0", "1.0"]]
      ["buy", "99.0", "-1.0"] "T1" (by decide) (by decide!) (by decide),
    by decide!⟩

/-! ## More on the loader and on the loop of apply -/

theorem stepBook_absent_removal (sscan : String → Option ℚ) (bk : Book) (ch : List String)
    (hz : chSize sscan ch = 0) (habs : bk.level (chIsBuy ch) (chPrice sscan ch) = none) :
    stepBook sscan bk ch = bk := by
  refine Book.ext_level _ _ fun buy p => ?_
  by_cases hn : Names sscan ch buy p
  · rw [level_stepBook_named sscan bk ch buy p hn, if_pos hz]
    obtain ⟨hb, hp⟩ := hn
    rw [← hb, ← hp, habs]
  · exact level_stepBook_frame sscan bk ch buy p hn

theorem foldl_absent_removals (sscan : String → Option ℚ) (bk : Book)
    (chs : List (List String))
    (h : ∀ ch ∈ chs, chSize sscan ch = 0 ∧ bk.level (chIsBuy ch) (chPrice sscan ch) = none) :
    chs.foldl (stepBook sscan) bk = bk := by
  induction chs with
  | nil => rfl
  | cons ch rest ih =>
    have hch := h ch (List.mem_cons_self _ _)
    rw [List.foldl_cons, stepBook_absent_removal sscan bk ch hch.1 hch.2]
    exact ih (fun c hc => h c (List.mem_cons_of_mem _ hc))

theorem maxKey_empty : maxKey ∅ = 0 := rfl

theorem crossCheck_of_bids_empty (unixNano : String → Int) (bk : Book) (ts : String)
    (h : bk.bids = ∅) : crossCheck unixNano bk ts = none := by
  unfold crossCheck
  simp only [h, maxKey_empty]
  rw [if_neg]
  exact fun hc => lt_irrefl 0 hc.2.1

theorem applyChanges_none_of_not_wf (sscan : String → Option ℚ) (bk : Book)
    (chs : List (List String)) (h : ∃ ch ∈ chs, ¬ WellFormed ch) :
    applyChanges sscan bk chs = none := by
  induction chs generalizing bk with
  | nil => simp at h
  | cons c rest ih =>
    by_cases hc : WellFormed c
    · rw [applyChanges, applyChange_eq sscan bk c hc]
      refine ih _ ?_
      obtain ⟨ch, hch, hn⟩ := h
      rcases List.mem_cons.1 hch with rfl | hch
      · exact absurd hc hn
      · exact ⟨ch, hch, hn⟩
    · rw [applyChanges, applyChange_none sscan bk c hc]

theorem decision_apply (sscan : String → Option ℚ) (unixNano₁ unixNano₂ : String → Int)
    (bk : Book) (u : l2update) (ts₁ ts₂ : String) :
    decision (apply sscan unixNano₁ bk u ts₁) = decision (apply sscan unixNano₂ bk u ts₂) := by
  unfold apply decision
  cases applyChanges sscan bk u.Changes with
  | none => rfl
  | some bk' =>
    simp only [Option.map_some', crossCheck]
    split_ifs <;> rfl

/-! ## Properties of the program, continued -/

/-- C11 as stated fails: on the empty book the snapshot with the bid level
(100.0, 0) and the ask level (101.0, -1.0) does not leave the sides as the
snapshot without these levels does (both empty); each level is inserted. -/
theorem loadSnap_inserts_nonpositive_sizes :
    loadSnap emptyBook ⟨Finmap.singleton 100 0, Finmap.singleton 101 (-1)⟩ =
      ⟨Finmap.singleton 0 0, Finmap.singleton (-1) (-1)⟩ ∧
    loadSnap emptyBook ⟨∅, ∅⟩ = emptyBook ∧
    loadSnap emptyBook ⟨Finmap.singleton 100 0, Finmap.singleton 101 (-1)⟩ ≠
      loadSnap emptyBook ⟨∅, ∅⟩ := by
  refine ⟨by decide!, by decide!, by decide!⟩

/-- C11, amended: for every book and every snapshot, `loadSnap` skips no
level: for every level of the snapshot, whatever its size (0 and negative
sizes included), the corresponding side holds after `loadSnap` an entry whose
value is that size. -/
theorem loadSnap_skips_no_level (bk : Book) (s : snapshot) (k v : ℚ) :
    (s.Bids.lookup k = some v → ∃ k', (loadSnap bk s).bids.lookup k' = some v) ∧
    (s.Asks.lookup k = some v → ∃ k', (loadSnap bk s).asks.lookup k' = some v) :=
  ⟨fun h => ⟨v, lookup_loadSide_of_value bk.bids s.Bids v ⟨k, h⟩⟩,
    fun h => ⟨v, lookup_loadSide_of_value bk.asks s.Asks v ⟨k, h⟩⟩⟩

/-- C11 amended, at the snapshot with the bid level (100.0, 0) and the ask
level (101.0, -1.0): sizes 0 and -1.0 are stored. -/
theorem loadSnap_skips_no_level_witness :
    (Finmap.singleton 100 0 : PriceMap).lookup 100 = some 0 ∧
    (Finmap.singleton 101 (-1) : PriceMap).lookup 101 = some (-1) ∧
    (∃ k', (loadSnap emptyBook
      ⟨Finmap.singleton 100 0, Finmap.singleton 101 (-1)⟩).bids.lookup k' = some 0) ∧
    (∃ k', (loadSnap emptyBook
      ⟨Finmap.singleton 100 0, Finmap.singleton 101 (-1)⟩).asks.lookup k' = some (-1)) :=
  ⟨Finmap.lookup_singleton_eq, Finmap.lookup_singleton_eq,
    (loadSnap_skips_no_level emptyBook ⟨Finmap.singleton 100 0, Finmap.singleton 101 (-1)⟩
      100 0).1 Finmap.lookup_singleton_eq,
    (loadSnap_skips_no_level emptyBook ⟨Finmap.singleton 100 0, Finmap.singleton 101 (-1)⟩
      101 (-1)).2 Finmap.lookup_singleton_eq⟩

/-- C12: for every book, `apply` on a batch made only of well-formed removals
(size 0) of levels that are absent from the side they name completes and
leaves both sides unchanged; when the book is the empty book no cross event
is reported. -/
theorem apply_absent_removals (sscan : String → Option ℚ) (unixNano : String → Int)
    (bk : Book) (u : l2update) (ts : String)
    (h : ∀ ch ∈ u.Changes, WellFormed ch ∧ chSize sscan ch = 0 ∧
      bk.level (chIsBuy ch) (chPrice sscan ch) = none) :
    ∃ ev, apply sscan unixNano bk u ts = some (bk, ev) ∧ (bk = emptyBook → ev = none) := by
  refine ⟨crossCheck unixNano bk ts, ?_, fun hbk => ?_⟩
  · rw [apply_eq sscan unixNano bk u ts (fun ch hch => (h ch hch).1),
      foldl_absent_removals sscan bk u.Changes (fun ch hch => (h ch hch).2)]
  · exact crossCheck_of_bids_empty unixNano bk ts (by rw [hbk]; rfl)

/-- C12, on the empty book with the single ask-side removal [sell 101.0 0]:
both sides stay empty and no cross event is reported. -/
theorem apply_absent_removals_witness :
    (∀ ch ∈ [["sell", "101.0", "0"]], WellFormed ch ∧ chSize sampleScan ch = 0 ∧
      emptyBook.level (chIsBuy ch) (chPrice sampleScan ch) = none) ∧
    apply sampleScan sampleNano emptyBook ⟨[["sell", "101.0", "0"]]⟩ "T1" =
      some (emptyBook, none) := by
  have h : ∀ ch ∈ [["sell", "101.0", "0"]], WellFormed ch ∧ chSize sampleScan ch = 0 ∧
      emptyBook.level (chIsBuy ch) (chPrice sampleScan ch) = none := by
    intro ch hch
    rw [List.mem_singleton] at hch
    subst hch
    exact ⟨by decide, by decide, by decide!⟩
  obtain ⟨ev, hev, hnone⟩ :=
    apply_absent_removals sampleScan sampleNano emptyBook ⟨[["sell", "101.0", "0"]]⟩ "T1" h
  rw [hnone rfl] at hev
  exact ⟨h, hev⟩

/-- C13: for every book, every batch and every two timestamp strings, however
each of them is read by `time.Parse`, the two runs of `apply` end in the same
book with the same cross decision and the same best bid and best ask; on a
batch of well-formed changes both runs complete. -/
theorem apply_timestamp_independent (sscan : String → Option ℚ)
    (unixNano₁ unixNano₂ : String → Int) (bk : Book) (u : l2update) (ts₁ ts₂ : String) :
    decision (apply sscan unixNano₁ bk u ts₁) = decision (apply sscan unixNano₂ bk u ts₂) ∧
    ((∀ ch ∈ u.Changes, WellFormed ch) →
      (apply sscan unixNano₁ bk u ts₁).isSome ∧ (apply sscan unixNano₂ bk u ts₂).isSome) := by
  refine ⟨decision_apply sscan unixNano₁ unixNano₂ bk u ts₁ ts₂, fun hwf => ?_⟩
  rw [apply_eq sscan unixNano₁ bk u ts₁ hwf, apply_eq sscan unixNano₂ bk u ts₂ hwf]
  exact ⟨rfl, rfl⟩

/-- C13, at the crossing batch [sell 101.0 1.5, buy 101.5 3.0] with a
timestamp in RFC 3339 form and one that is not: both runs report the cross
(101.5, 101.0). -/
theorem apply_timestamp_independent_witness :
    (∀ ch ∈ [["sell", "101.0", "1.5"], ["buy", "101.5", "3.0"]], WellFormed ch) ∧
    decision (apply sampleScan sampleNano emptyBook
        ⟨[["sell", "101.0", "1.5"], ["buy", "101.5", "3.0"]]⟩ "2024-01-01T00:00:00Z") =
      decision (apply sampleScan (fun _ => -1) emptyBook
        ⟨[["sell", "101.0", "1.5"], ["buy", "101.5", "3.0"]]⟩ "not a time") ∧
    (apply sampleScan sampleNano emptyBook
        ⟨[["sell", "101.0", "1.5"], ["buy", "101.5", "3.0"]]⟩ "2024-01-01T00:00:00Z").isSome ∧
    (apply sampleScan (fun _ => -1) emptyBook
        ⟨[["sell", "101.0", "1.5"], ["buy", "101.5", "3.0"]]⟩ "not a time").isSome ∧
    decision (apply sampleScan (fun _ => -1) emptyBook
        ⟨[["sell", "101.0", "1.5"], ["buy", "101.5", "3.0"]]⟩ "not a time") =
      some (⟨Finmap.singleton 101.5 3, Finmap.singleton 101 1.5⟩, some (101.5, 101)) :=
  ⟨by decide,
    (apply_timestamp_independent sampleScan sampleNano (fun _ => -1) emptyBook
      ⟨[["sell", "101.0", "1.5"], ["buy", "101.5", "3.0"]]⟩
      "2024-01-01T00:00:00Z" "not a time").1,
    ((apply_timestamp_independent sampleScan sampleNano (fun _ => -1) emptyBook
      ⟨[["sell", "101.0", "1.5"], ["buy", "101.5", "3.0"]]⟩
      "2024-01-01T00:00:00Z" "not a time").2 (by decide)).1,
    ((apply_timestamp_independent sampleScan sampleNano (fun _ => -1) emptyBook
      ⟨[["sell", "101.0", "1.5"], ["buy", "101.5", "3.0"]]⟩
      "2024-01-01T00:00:00Z" "not a time").2 (by decide)).2,
    by decide!⟩

/-- C14 as stated fails: on the empty book the batch whose single change
["buy", "100.0"] has two fields makes `apply` fault on `ch[2]` (index out of
range); so does a batch that reaches such a change after a well-formed one. -/
theorem apply_faults_on_short_change :
    apply sampleScan sampleNano emptyBook ⟨[["buy", "100.0"]]⟩ "T1" = none ∧
    apply sampleScan sampleNano emptyBook
      ⟨[["sell", "101.0", "1.5"], ["buy", "100.0"]]⟩ "T1" = none := by
  refine ⟨by decide!, by decide!⟩

/-- C14, amended: for every book and every batch whose changes all have at
least three fields, `apply` completes without a fault, and on the book it
leaves a subsequent `apply` of a batch whose changes all have at least three
fields completes as well. -/
theorem apply_completes_on_well_formed (sscan : String → Option ℚ)
    (unixNano : String → Int) (bk : Book) (u u' : l2update) (ts ts' : String)
    (hwf : ∀ ch ∈ u.Changes, WellFormed ch) (hwf' : ∀ ch ∈ u'.Changes, WellFormed ch) :
    ∃ bk' ev, apply sscan unixNano bk u ts = some (bk', ev) ∧
      ∃ bk'' ev', apply sscan unixNano bk' u' ts' = some (bk'', ev') :=
  ⟨_, _, apply_eq sscan unixNano bk u ts hwf, _, _, apply_eq sscan unixNano _ u' ts' hwf'⟩

/-- C14 amended, at a batch with a four-field change followed by the batch
[buy 101.5 3.0]. -/
theorem apply_completes_on_well_formed_witness :
    (∀ ch ∈ [["sell", "101.0", "1.5", "extra"]], WellFormed ch) ∧
    (∀ ch ∈ [["buy", "101.5", "3.0"]], WellFormed ch) ∧
    ∃ bk' ev, apply sampleScan sampleNano emptyBook
        ⟨[["sell", "101.0", "1.5", "extra"]]⟩ "T1" = some (bk', ev) ∧
      ∃ bk'' ev', apply sampleScan sampleNano bk' ⟨[["buy", "101.5", "3.0"]]⟩ "T2" =
        some (bk'', ev') :=
  ⟨by decide, by decide,
    apply_completes_on_well_formed sampleScan sampleNano emptyBook
      ⟨[["sell", "101.0", "1.5", "extra"]]⟩ ⟨[["buy", "101.5", "3.0"]]⟩ "T1" "T2"
      (by decide) (by decide)⟩

/-- C15 as stated fails: on the empty book, the batch
[sell 1.0 1.0, buy 1.5e12 1.0, sell 2e12 1.0, sell 1.0 0] is crossed after its
first two changes (bid 1.5e12 against ask 1.0) and not crossed at the end (bid
1.5e12 below the only ask 2e12), and `apply` reports a cross event, with the
best ask 1e12 that `minKey` starts from.  The batch
[sell 1.0 1.0, buy 1e12 1.0, sell 1.0 0] is crossed after two changes, ends
with an empty ask side, and a cross event is reported as well. -/
theorem apply_reports_cross_on_uncrossed_final_state :
    applyChanges wideScan emptyBook [["sell", "1.0", "1.0"], ["buy", "1.5e12", "1.0"]] =
      some ⟨Finmap.singleton 1.5e12 1, Finmap.singleton 1 1⟩ ∧
    Crossed ⟨Finmap.singleton 1.5e12 1, Finmap.singleton 1 1⟩ 1.5e12 1 ∧
    apply wideScan sampleNano emptyBook
        ⟨[["sell", "1.0", "1.0"], ["buy", "1.5e12", "1.0"], ["sell", "2e12", "1.0"],
          ["sell", "1.0", "0"]]⟩ "T1" =
      some (⟨Finmap.singleton 1.5e12 1, Finmap.singleton 2e12 1⟩,
        some ⟨0, 1.5e12, 1e12⟩) ∧
    (¬ ∃ B A, Crossed ⟨Finmap.singleton 1.5e12 1, Finmap.singleton 2e12 1⟩ B A) ∧
    applyChanges wideScan emptyBook [["sell", "1.0", "1.0"], ["buy", "1e12", "1.0"]] =
      some ⟨Finmap.singleton 1e12 1, Finmap.singleton 1 1⟩ ∧
    Crossed ⟨Finmap.singleton 1e12 1, Finmap.singleton 1 1⟩ 1e12 1 ∧
    apply wideScan sampleNano emptyBook
        ⟨[["sell", "1.0", "1.0"], ["buy", "1e12", "1.0"], ["sell", "1.0", "0"]]⟩ "T1" =
      some (⟨Finmap.singleton 1e12 1, ∅⟩, some ⟨0, 1e12, 1e12⟩) ∧
    (¬ ∃ B A, Crossed ⟨Finmap.singleton 1e12 1, ∅⟩ B A) := by
  refine ⟨by decide!, ?_, by decide!, ?_, by decide!, ?_, by decide!, ?_⟩
  · simp only [Crossed, IsMaxKey, IsMinKey, Finmap.mem_singleton]
    norm_num
  · rintro ⟨B, A, ⟨hB, _⟩, ⟨hA, _⟩, h⟩
    rw [Finmap.mem_singleton] at hB hA
    subst hB hA
    norm_num at h
  · simp only [Crossed, IsMaxKey, IsMinKey, Finmap.mem_singleton]
    norm_num
  · rintro ⟨B, A, _, ⟨hA, _⟩, _⟩
    exact Finmap.not_mem_empty hA

/-- C15, amended: `apply` evaluates the cross predicate once per batch, on the
book after ALL changes of the batch: for a batch of well-formed changes split
anywhere into a prefix and the rest, it reports at most one event, the one its
predicate gives on the final book; and when every bid price of the final book
is < 1e12 and the final book is not crossed (a side is empty, or the maximum
bid is below the minimum ask), no cross event is reported, whether or not the
book after the prefix is crossed. -/
theorem apply_reports_on_final_state (sscan : String → Option ℚ) (unixNano : String → Int)
    (bk : Book) (pre post : List (List String)) (ts : String)
    (hwf : ∀ ch ∈ pre ++ post, WellFormed ch) :
    ∃ mid final ev, applyChanges sscan bk pre = some mid ∧
      applyChanges sscan mid post = some final ∧
      apply sscan unixNano bk ⟨pre ++ post⟩ ts = some (final, ev) ∧
      ev = crossCheck unixNano final ts ∧
      ((∀ p ∈ final.bids, p < 1e12) → (¬ ∃ B A, Crossed final B A) → ev = none) := by
  have hpre : ∀ ch ∈ pre, WellFormed ch := fun ch h => hwf ch (List.mem_append_left _ h)
  have hpost : ∀ ch ∈ post, WellFormed ch := fun ch h => hwf ch (List.mem_append_right _ h)
  have hall : apply sscan unixNano bk ⟨pre ++ post⟩ ts =
      some (post.foldl (stepBook sscan) (pre.foldl (stepBook sscan) bk),
        crossCheck unixNano (post.foldl (stepBook sscan) (pre.foldl (stepBook sscan) bk)) ts) := by
    rw [apply_eq sscan unixNano bk ⟨pre ++ post⟩ ts hwf, List.foldl_append]
  refine ⟨pre.foldl (stepBook sscan) bk,
    post.foldl (stepBook sscan) (pre.foldl (stepBook sscan) bk), _,
    applyChanges_eq sscan bk pre hpre, applyChanges_eq sscan _ post hpost, hall, rfl, ?_⟩
  intro hb hnot
  cases hev : crossCheck unixNano
      (post.foldl (stepBook sscan) (pre.foldl (stepBook sscan) bk)) ts with
  | none => rfl
  | some e => exact absurd ⟨_, _, crossed_of_crossCheck unixNano _ ts e hb hev⟩ hnot

/-- C15 amended, at the batch [sell 101.0 1.5, buy 100.0 2.0, buy 101.5 3.0]
followed by [buy 101.5 0]: after the prefix the book is crossed at
(101.5, 101.0), the final book has the bid 100.0 below the ask 101.0, and no
event is reported. -/
theorem apply_reports_on_final_state_witness :
    (∀ ch ∈ [["sell", "101.0", "1.5"], ["buy", "100.0", "2.0"], ["buy", "101.5", "3.0"]] ++
      [["buy", "101.5", "0"]], WellFormed ch) ∧
    (∃ mid final ev,
      applyChanges sampleScan emptyBook
        [["sell", "101.0", "1.5"], ["buy", "100.0", "2.0"], ["buy", "101.5", "3.0"]] =
          some mid ∧
      applyChanges sampleScan mid [["buy", "101.5", "0"]] = some final ∧
      apply sampleScan sampleNano emptyBook
        ⟨[["sell", "101.0", "1.5"], ["buy", "100.0", "2.0"], ["buy", "101.5", "3.0"]] ++
          [["buy", "101.5", "0"]]⟩ "T1" = some (final, ev) ∧
      ev = crossCheck sampleNano final "T1" ∧
      ((∀ p ∈ final.bids, p < 1e12) → (¬ ∃ B A, Crossed final B A) → ev = none)) ∧
    applyChanges sampleScan emptyBook
      [["sell", "101.0", "1.5"], ["buy", "100.0", "2.0"], ["buy", "101.5", "3.0"]] =
        some ⟨Finmap.insert 101.5 3 (Finmap.singleton 100 2), Finmap.singleton 101 1.5⟩ ∧
    Crossed ⟨Finmap.insert 101.5 3 (Finmap.singleton 100 2), Finmap.singleton 101 1.5⟩
      101.5 101 ∧
    apply sampleScan sampleNano emptyBook
      ⟨[["sell", "101.0", "1.5"], ["buy", "100.0", "2.0"], ["buy", "101.5", "3.0"]] ++
        [["buy", "101.5", "0"]]⟩ "T1" =
        some (⟨Finmap.singleton 100 2, Finmap.singleton 101 1.5⟩, none) ∧
    (∀ p ∈ (Finmap.singleton 100 2 : PriceMap), p < 1e12) ∧
    (¬ ∃ B A, Crossed ⟨Finmap.singleton 100 2, Finmap.singleton 101 1.5⟩ B A) := by
  refine ⟨by decide,
    apply_reports_on_final_state sampleScan sampleNano emptyBook
      [["sell", "101.0", "1.5"], ["buy", "100.0", "2.0"], ["buy", "101.5", "3.0"]]
      [["buy", "101.5", "0"]] "T1" (by decide),
    by decide!, ?_, by decide!, ?_, ?_⟩
  · simp only [Crossed, IsMaxKey, IsMinKey, Finmap.mem_insert, Finmap.mem_singleton]
    refine ⟨⟨Or.inl trivial, ?_⟩, ⟨trivial, ?_⟩, by norm_num⟩
    · rintro j (rfl | rfl) <;> norm_num
    · rintro j rfl; exact le_refl _
  · intro p hp
    rw [Finmap.mem_singleton] at hp
    subst hp
    norm_num
  · rintro ⟨B, A, ⟨hB, _⟩, ⟨hA, _⟩, h⟩
    rw [Finmap.mem_singleton] at hB hA
    subst hB hA
    norm_num at h

/-- C16 as stated fails: after `loadSnap` on the empty book with the snapshot
bids {100.0 -> 2.0}, asks {101.0 -> 1.5}, the bid side does not hold
100.0 -> 100.0 and the ask side does not hold 101.0 -> 101.0: no entry has
the key 100.0 or 101.0. -/
theorem loadSnap_price_is_not_the_key :
    (loadSnap emptyBook ⟨Finmap.singleton 100 2, Finmap.singleton 101 1.5⟩).bids.lookup 100 ≠
      some 100 ∧
    (loadSnap emptyBook ⟨Finmap.singleton 100 2, Finmap.singleton 101 1.5⟩).asks.lookup 101 ≠
      some 101 ∧
    (100 : ℚ) ∉ (loadSnap emptyBook ⟨Finmap.singleton 100 2, Finmap.singleton 101 1.5⟩).bids ∧
    (101 : ℚ) ∉ (loadSnap emptyBook ⟨Finmap.singleton 100 2, Finmap.singleton 101 1.5⟩).asks := by
  refine ⟨by decide!, by decide!, by decide!, by decide!⟩

/-- C16, amended: the snapshot loader stores, for each level of the snapshot,
the level's SIZE as both map key and map value: for every (price, size) pair
of the snapshot's bids, after `loadSnap` the bid side has bids[size] = size
(likewise asks[size] = size for its asks); the price is discarded: a key that
is the size of no level of the snapshot's side is as it was before. -/
theorem loadSnap_keys_levels_by_size (bk : Book) (s : snapshot) (k v : ℚ) :
    (s.Bids.lookup k = some v → (loadSnap bk s).bids.lookup v = some v) ∧
    (s.Asks.lookup k = some v → (loadSnap bk s).asks.lookup v = some v) ∧
    ((∀ j, s.Bids.lookup j ≠ some k) → (loadSnap bk s).bids.lookup k = bk.bids.lookup k) ∧
    ((∀ j, s.Asks.lookup j ≠ some k) → (loadSnap bk s).asks.lookup k = bk.asks.lookup k) :=
  ⟨fun h => lookup_loadSide_of_value bk.bids s.Bids v ⟨k, h⟩,
    fun h => lookup_loadSide_of_value bk.asks s.Asks v ⟨k, h⟩,
    fun h => lookup_loadSide_of_not_value bk.bids s.Bids k h,
    fun h => lookup_loadSide_of_not_value bk.asks s.Asks k h⟩

theorem lookup_singleton_ne_some (k v p : ℚ) (h : v ≠ p) (j : ℚ) :
    (Finmap.singleton k v : PriceMap).lookup j ≠ some p := by
  intro hj
  have hmem : j ∈ (Finmap.singleton k v : PriceMap) := Finmap.mem_of_lookup_eq_some hj
  have hjk : j = k := (Finmap.mem_singleton j k v).1 hmem
  subst hjk
  rw [Finmap.lookup_singleton_eq] at hj
  exact h (Option.some.inj hj)

/-- C16 amended, at the snapshot bids {100.0 -> 2.0}, asks {101.0 -> 1.5} on
the empty book: bids[2.0] = 2.0, asks[1.5] = 1.5, and the keys 100.0 and 101.0
stay absent. -/
theorem loadSnap_keys_levels_by_size_witness :
    (Finmap.singleton 100 2 : PriceMap).lookup 100 = some 2 ∧
    (Finmap.singleton 101 1.5 : PriceMap).lookup 101 = some 1.5 ∧
    (loadSnap emptyBook ⟨Finmap.singleton 100 2, Finmap.singleton 101 1.5⟩).bids.lookup 2 =
      some 2 ∧
    (loadSnap emptyBook ⟨Finmap.singleton 100 2, Finmap.singleton 101 1.5⟩).asks.lookup 1.5 =
      some 1.5 ∧
    (loadSnap emptyBook ⟨Finmap.singleton 100 2, Finmap.singleton 101 1.5⟩).bids.lookup 100 =
      emptyBook.bids.lookup 100 ∧
    (loadSnap emptyBook ⟨Finmap.singleton 100 2, Finmap.singleton 101 1.5⟩).asks.lookup 101 =
      emptyBook.asks.lookup 101 :=
  ⟨Finmap.lookup_singleton_eq, Finmap.lookup_singleton_eq,
    (loadSnap_keys_levels_by_size emptyBook
      ⟨Finmap.singleton 100 2, Finmap.singleton 101 1.5⟩ 100 2).1 Finmap.lookup_singleton_eq,
    (loadSnap_keys_levels_by_size emptyBook
      ⟨Finmap.singleton 100 2, Finmap.singleton 101 1.5⟩ 101 1.5).2.1
        Finmap.lookup_singleton_eq,
    (loadSnap_keys_levels_by_size emptyBook
      ⟨Finmap.singleton 100 2, Finmap.singleton 101 1.5⟩ 100 2).2.2.1
        (lookup_singleton_ne_some 100 2 100 (by norm_num)),
    (loadSnap_keys_levels_by_size emptyBook
      ⟨Finmap.singleton 100 2, Finmap.singleton 101 1.5⟩ 101 1.5).2.2.2
        (lookup_singleton_ne_some 101 1.5 101 (by norm_num))⟩

/-! ## The sentinel check against the presence-checked predicate -/

theorem maxKey_of_not_nonempty (m : PriceMap) (h : ¬ m.keys.Nonempty) : maxKey m = 0 := by
  rcases maxKey_eq_zero_or_mem m with h0 | hm
  · exact h0
  · exact absurd ⟨maxKey m, Finmap.mem_keys.2 hm⟩ h

theorem minKey_of_not_nonempty (m : PriceMap) (h : ¬ m.keys.Nonempty) : minKey m = 1e12 := by
  rcases minKey_eq_sentinel_or_mem m with h0 | hm
  · exact h0
  · exact absurd ⟨minKey m, Finmap.mem_keys.2 hm⟩ h

theorem maxKey_eq_max' (m : PriceMap) (h : m.keys.Nonempty) (hk : ∃ k ∈ m, 0 ≤ k) :
    maxKey m = m.keys.max' h := by
  obtain ⟨hmem, hle⟩ := isMaxKey_maxKey m hk
  refine le_antisymm (Finset.le_max' _ _ (Finmap.mem_keys.2 hmem)) ?_
  exact hle _ (Finmap.mem_keys.1 (Finset.max'_mem _ h))

theorem minKey_eq_min' (m : PriceMap) (h : m.keys.Nonempty) (hk : ∃ k ∈ m, k ≤ 1e12) :
    minKey m = m.keys.min' h := by
  obtain ⟨hmem, hle⟩ := isMinKey_minKey m hk
  refine le_antisymm ?_ (Finset.min'_le _ _ (Finmap.mem_keys.2 hmem))
  exact hle _ (Finmap.mem_keys.1 (Finset.min'_mem _ h))

theorem crossCheck_eq_specCross (unixNano : String → Int) (bk : Book) (ts : String)
    (hb : ∀ p ∈ bk.bids, 0 < p ∧ p < 1e12) (ha : ∀ p ∈ bk.asks, 0 < p ∧ p < 1e12) :
    crossCheck unixNano bk ts = specCross unixNano bk ts := by
  unfold specCross specBestBid specBestAsk crossCheck
  by_cases hB : bk.bids.keys.Nonempty
  · have hBmem : bk.bids.keys.max' hB ∈ bk.bids := Finmap.mem_keys.1 (Finset.max'_mem _ hB)
    have hmax : maxKey bk.bids = bk.bids.keys.max' hB :=
      maxKey_eq_max' bk.bids hB ⟨_, hBmem, le_of_lt (hb _ hBmem).1⟩
    by_cases hA : bk.asks.keys.Nonempty
    · have hAmem : bk.asks.keys.min' hA ∈ bk.asks := Finmap.mem_keys.1 (Finset.min'_mem _ hA)
      have hmin : minKey bk.asks = bk.asks.keys.min' hA :=
        minKey_eq_min' bk.asks hA ⟨_, hAmem, le_of_lt (ha _ hAmem).2⟩
      simp only [dif_pos hB, dif_pos hA, hmax, hmin]
      by_cases hc : bk.bids.keys.max' hB ≥ bk.asks.keys.min' hA
      · rw [if_pos ⟨hc, (hb _ hBmem).1, (ha _ hAmem).1⟩, if_pos hc]
      · rw [if_neg (fun h => hc h.1), if_neg hc]
    · simp only [dif_pos hB, dif_neg hA, hmax, minKey_of_not_nonempty bk.asks hA]
      rw [if_neg]
      exact fun h => absurd (lt_of_le_of_lt h.1 (hb _ hBmem).2) (lt_irrefl _)
  · simp only [dif_neg hB, maxKey_of_not_nonempty bk.bids hB]
    rw [if_neg]
    exact fun h => lt_irrefl 0 h.2.1

theorem sizesNonzero_setLevel (m : PriceMap) (px sz : ℚ) (hm : SizesNonzero m) :
    SizesNonzero (setLevel m px sz) := by
  intro k v hkv
  by_cases hk : k = px
  · subst hk
    rw [level_setLevel_same] at hkv
    split_ifs at hkv with h0
    cases hkv
    exact h0
  · rw [level_setLevel_other m px sz k hk] at hkv
    exact hm k v hkv

theorem sizesNonzero_stepBook (sscan : String → Option ℚ) (bk : Book) (ch : List String)
    (hbk : bk.SizesNonzero) : (stepBook sscan bk ch).SizesNonzero := by
  unfold stepBook
  split_ifs
  · exact ⟨sizesNonzero_setLevel _ _ _ hbk.1, hbk.2⟩
  · exact ⟨hbk.1, sizesNonzero_setLevel _ _ _ hbk.2⟩

theorem sizesNonzero_foldl (sscan : String → Option ℚ) (chs : List (List String)) (bk : Book)
    (hbk : bk.SizesNonzero) : (chs.foldl (stepBook sscan) bk).SizesNonzero := by
  induction chs generalizing bk with
  | nil => exact hbk
  | cons ch rest ih =>
    rw [List.foldl_cons]
    exact ih _ (sizesNonzero_stepBook sscan bk ch hbk)

theorem sizesNonzero_of_pos (m : PriceMap) (h : SizesPos m) : SizesNonzero m :=
  fun k v hkv => ne_of_gt (h k v hkv)

/-! ## Properties of the program, the behaviour of the reference -/

/-- C17: for every book and every batch of well-formed changes such that
after the batch every stored bid price and every stored ask price is > 0 and
< 1e12, what `apply` reports is what the presence-checked cross predicate
gives on the book after the batch: a cross event exactly when both sides are
non-empty and the maximum bid price is >= the minimum ask price, carrying
that maximum and that minimum. -/
theorem apply_refines_presence_checked (sscan : String → Option ℚ)
    (unixNano : String → Int) (bk : Book) (u : l2update) (ts : String)
    (hwf : ∀ ch ∈ u.Changes, WellFormed ch) :
    ∃ bk' ev, apply sscan unixNano bk u ts = some (bk', ev) ∧
      ((∀ p ∈ bk'.bids, 0 < p ∧ p < 1e12) → (∀ p ∈ bk'.asks, 0 < p ∧ p < 1e12) →
        ev = specCross unixNano bk' ts ∧
        (ev.isSome ↔ ∃ B A, Crossed bk' B A) ∧
        ∀ e, ev = some e → Crossed bk' e.bestBid e.bestAsk) :=
  ⟨_, _, apply_eq sscan unixNano bk u ts hwf, fun hb ha =>
    ⟨crossCheck_eq_specCross unixNano _ ts hb ha,
      crossCheck_of_range unixNano _ ts (fun p hp => (hb p hp).2)
        (fun p hp => ⟨(ha p hp).1, le_of_lt (ha p hp).2⟩)⟩⟩

/-- C17, at the batch [buy 100.0 2.0, sell 100.0 1.0] on the empty book: both
prices are in range, the presence-checked predicate gives the cross
(100.0, 100.0), and that is what `apply` reports. -/
theorem apply_refines_presence_checked_witness :
    (∀ ch ∈ [["buy", "100.0", "2.0"], ["sell", "100.0", "1.0"]], WellFormed ch) ∧
    (∃ bk' ev, apply sampleScan sampleNano emptyBook
        ⟨[["buy", "100.0", "2.0"], ["sell", "100.0", "1.0"]]⟩ "T1" = some (bk', ev) ∧
      ((∀ p ∈ bk'.bids, 0 < p ∧ p < 1e12) → (∀ p ∈ bk'.asks, 0 < p ∧ p < 1e12) →
        ev = specCross sampleNano bk' "T1" ∧
        (ev.isSome ↔ ∃ B A, Crossed bk' B A) ∧
        ∀ e, ev = some e → Crossed bk' e.bestBid e.bestAsk)) ∧
    apply sampleScan sampleNano emptyBook
        ⟨[["buy", "100.0", "2.0"], ["sell", "100.0", "1.0"]]⟩ "T1" =
      some (⟨Finmap.singleton 100 2, Finmap.singleton 100 1⟩, some ⟨0, 100, 100⟩) ∧
    specCross sampleNano ⟨Finmap.singleton 100 2, Finmap.singleton 100 1⟩ "T1" =
      some ⟨0, 100, 100⟩ ∧
    (∀ p ∈ (Finmap.singleton 100 2 : PriceMap), 0 < p ∧ p < 1e12) ∧
    (∀ p ∈ (Finmap.singleton 100 1 : PriceMap), 0 < p ∧ p < 1e12) :=
  ⟨by decide,
    apply_refines_presence_checked sampleScan sampleNano emptyBook
      ⟨[["buy", "100.0", "2.0"], ["sell", "100.0", "1.0"]]⟩ "T1" (by decide),
    by decide!, by decide!,
    by intro p hp; rw [Finmap.mem_singleton] at hp; subst hp; norm_num,
    by intro p hp; rw [Finmap.mem_singleton] at hp; subst hp; norm_num⟩

/-- C18: for every book and every batch of well-formed changes, `apply`
leaves every level whose (side, price) no change of the batch names as it
was, present with the same size or absent; a batch whose changes all have
side "buy" leaves the ask side unchanged. -/
theorem apply_frame (sscan : String → Option ℚ) (unixNano : String → Int)
    (bk : Book) (u : l2update) (ts : String)
    (hwf : ∀ ch ∈ u.Changes, WellFormed ch) :
    ∃ bk' ev, apply sscan unixNano bk u ts = some (bk', ev) ∧
      (∀ buy p, (∀ ch ∈ u.Changes, ¬ Names sscan ch buy p) →
        bk'.level buy p = bk.level buy p) ∧
      ((∀ ch ∈ u.Changes, chIsBuy ch = true) → bk'.asks = bk.asks) := by
  refine ⟨_, _, apply_eq sscan unixNano bk u ts hwf,
    fun buy p h => level_foldl_frame sscan bk u.Changes buy p h, fun hbuy => ?_⟩
  refine Finmap.ext_lookup fun p => ?_
  have h := level_foldl_frame sscan bk u.Changes false p
    (fun ch hch hn => by
      have h1 : chIsBuy ch = false := hn.1
      rw [hbuy ch hch] at h1
      exact Bool.noConfusion h1)
  simpa [Book.level] using h

/-- C18, at the batch [buy 101.5 3.0] on the book with bid 100.0 -> 2.0 and
ask 101.0 -> 1.5: the bid at 100.0 and the whole ask side are as before. -/
theorem apply_frame_witness :
    (∀ ch ∈ [["buy", "101.5", "3.0"]], WellFormed ch) ∧
    (∀ ch ∈ [["buy", "101.5", "3.0"]], ¬ Names sampleScan ch true 100) ∧
    (∀ ch ∈ [["buy", "101.5", "3.0"]], chIsBuy ch = true) ∧
    ∃ bk' ev, apply sampleScan sampleNano ⟨Finmap.singleton 100 2, Finmap.singleton 101 1.5⟩
        ⟨[["buy", "101.5", "3.0"]]⟩ "T1" = some (bk', ev) ∧
      bk'.level true 100 =
        (Book.mk (Finmap.singleton 100 2) (Finmap.singleton 101 1.5)).level true 100 ∧
      bk'.asks = Finmap.singleton 101 1.5 := by
  obtain ⟨bk', ev, h, hframe, hasks⟩ :=
    apply_frame sampleScan sampleNano ⟨Finmap.singleton 100 2, Finmap.singleton 101 1.5⟩
      ⟨[["buy", "101.5", "3.0"]]⟩ "T1" (by decide)
  exact ⟨by decide, by decide!, by decide, bk', ev, h, hframe true 100 (by decide!),
    hasks (by decide)⟩

/-- C19: for every book and every change whose side string is anything other
than exactly "buy", the pass of the loop of `apply` on that change leaves the
bid side as it was and, on the ask side, removes the level at the change's
price when its size is 0 and otherwise sets it to the change's size; `apply`
on the batch made of that change ends in that book. -/
theorem apply_non_buy_is_ask (sscan : String → Option ℚ) (unixNano : String → Int)
    (bk : Book) (side pxStr szStr ts : String) (extra : List String)
    (hside : side ≠ "buy") :
    applyChange sscan bk (side :: pxStr :: szStr :: extra) =
      some ⟨bk.bids,
        if strToF sscan szStr = 0 then bk.asks.erase (strToF sscan pxStr)
        else bk.asks.insert (strToF sscan pxStr) (strToF sscan szStr)⟩ ∧
    ∃ ev, apply sscan unixNano bk ⟨[side :: pxStr :: szStr :: extra]⟩ ts =
      some (⟨bk.bids,
        if strToF sscan szStr = 0 then bk.asks.erase (strToF sscan pxStr)
        else bk.asks.insert (strToF sscan pxStr) (strToF sscan szStr)⟩, ev) := by
  have h1 : applyChange sscan bk (side :: pxStr :: szStr :: extra) =
      some ⟨bk.bids,
        if strToF sscan szStr = 0 then bk.asks.erase (strToF sscan pxStr)
        else bk.asks.insert (strToF sscan pxStr) (strToF sscan szStr)⟩ := by
    by_cases hz : strToF sscan szStr = 0 <;> simp [applyChange, hside, hz]
  refine ⟨h1, ?_⟩
  simp only [apply, applyChanges, h1]
  exact ⟨_, rfl⟩

/-- C19, on the empty book with the side strings "sell", "BUY" and "": each
of [side 100.0 2.0] leaves the bid side empty and sets the ask at 100.0. -/
theorem apply_non_buy_is_ask_witness :
    "sell" ≠ "buy" ∧ "BUY" ≠ "buy" ∧ "" ≠ "buy" ∧
    applyChange sampleScan emptyBook ["sell", "100.0", "2.0"] =
      some ⟨∅, Finmap.insert 100 2 ∅⟩ ∧
    applyChange sampleScan emptyBook ["BUY", "100.0", "2.0"] =
      some ⟨∅, Finmap.insert 100 2 ∅⟩ ∧
    applyChange sampleScan emptyBook ["", "100.0", "2.0"] =
      some ⟨∅, Finmap.insert 100 2 ∅⟩ ∧
    applyChange sampleScan ⟨∅, Finmap.insert 100 2 ∅⟩ ["BUY", "100.0", "0"] =
      some ⟨∅, Finmap.erase 100 (Finmap.insert 100 2 ∅)⟩ := by
  have hscan : strToF sampleScan "2.0" = 2 ∧ strToF sampleScan "100.0" = 100 ∧
      strToF sampleScan "0" = 0 := ⟨by decide, by decide, by decide⟩
  have h1 := (apply_non_buy_is_ask sampleScan sampleNano emptyBook "sell" "100.0" "2.0" "T1" []
    (by decide)).1
  have h2 := (apply_non_buy_is_ask sampleScan sampleNano emptyBook "BUY" "100.0" "2.0" "T1" []
    (by decide)).1
  have h3 := (apply_non_buy_is_ask sampleScan sampleNano emptyBook "" "100.0" "2.0" "T1" []
    (by decide)).1
  have h4 := (apply_non_buy_is_ask sampleScan sampleNano ⟨∅, Finmap.insert 100 2 ∅⟩
    "BUY" "100.0" "0" "T1" [] (by decide)).1
  rw [hscan.1, hscan.2.1, if_neg (by norm_num)] at h1 h2 h3
  rw [hscan.2.2, hscan.2.1, if_pos rfl] at h4
  exact ⟨by decide, by decide, by decide, h1, h2, h3, h4⟩

/-- C20: `apply` never stores a zero size: for every book in which no stored
level has size 0 and every batch of well-formed changes, `apply` completes
and no stored level has size 0 afterwards; if moreover every stored size is
> 0 before and every size in the batch is >= 0, every stored size is > 0
afterwards. -/
theorem apply_never_stores_zero (sscan : String → Option ℚ) (unixNano : String → Int)
    (bk : Book) (u : l2update) (ts : String)
    (hwf : ∀ ch ∈ u.Changes, WellFormed ch) (hnz : bk.SizesNonzero) :
    ∃ bk' ev, apply sscan unixNano bk u ts = some (bk', ev) ∧ bk'.SizesNonzero ∧
      (bk.SizesPos → (∀ ch ∈ u.Changes, 0 ≤ chSize sscan ch) → bk'.SizesPos) :=
  ⟨_, _, apply_eq sscan unixNano bk u ts hwf, sizesNonzero_foldl sscan u.Changes bk hnz,
    fun hpos hsz => sizesPos_foldl sscan u.Changes bk hpos hsz⟩

/-- C20, at the batch [buy 100.0 0, sell 101.0 1.5, buy 99.0 1.0] on the book
with the single bid 100.0 -> 2.0: the sizes of the batch are >= 0 and the
stored sizes are > 0 before and after. -/
theorem apply_never_stores_zero_witness :
    (∀ ch ∈ [["buy", "100.0", "0"], ["sell", "101.0", "1.5"], ["buy", "99.0", "1.0"]],
      WellFormed ch) ∧
    Book.SizesNonzero ⟨Finmap.singleton 100 2, ∅⟩ ∧
    Book.SizesPos ⟨Finmap.singleton 100 2, ∅⟩ ∧
    (∀ ch ∈ [["buy", "100.0", "0"], ["sell", "101.0", "1.5"], ["buy", "99.0", "1.0"]],
      0 ≤ chSize sampleScan ch) ∧
    ∃ bk' ev, apply sampleScan sampleNano ⟨Finmap.singleton 100 2, ∅⟩
        ⟨[["buy", "100.0", "0"], ["sell", "101.0", "1.5"], ["buy", "99.0", "1.0"]]⟩ "T1" =
          some (bk', ev) ∧
      bk'.SizesNonzero ∧ bk'.SizesPos := by
  have hpos : Book.SizesPos ⟨Finmap.singleton 100 2, ∅⟩ :=
    ⟨sizesPos_singleton 100 2 (by norm_num), sizesPos_empty⟩
  have hnz : Book.SizesNonzero ⟨Finmap.singleton 100 2, ∅⟩ :=
    ⟨sizesNonzero_of_pos _ hpos.1, sizesNonzero_of_pos _ hpos.2⟩
  have hsz : ∀ ch ∈ [["buy", "100.0", "0"], ["sell", "101.0", "1.5"], ["buy", "99.0", "1.0"]],
      0 ≤ chSize sampleScan ch := by decide!
  obtain ⟨bk', ev, h, h0, hp⟩ :=
    apply_never_stores_zero sampleScan sampleNano ⟨Finmap.singleton 100 2, ∅⟩
      ⟨[["buy", "100.0", "0"], ["sell", "101.0", "1.5"], ["buy", "99.0", "1.0"]]⟩ "T1"
      (by decide) hnz
  exact ⟨by decide, hnz, hpos, hsz, bk', ev, h, h0, hp hpos hsz⟩

end OrderBook
